import Mathlib

/-!
Verification of a conservative mark-and-sweep garbage collector
(`Source/main.cpp`).  The C++ core is shallowly embedded: machine
addresses become `Nat`, the `std::map<void*, ObjectInfo*>` registry
becomes a key-sorted association list, the global `std::vector<IPtr*>`
handle registry becomes a list of handle records keyed by the handle's
own storage address, and every entry point of the core (allocation,
handle construction/assignment/destruction, explicit deallocation and
`CollectGarbage`) becomes an executable state transformer.
-/

namespace GC

/-- Mirrors `MemoryManager::ObjectInfo`: one registry record per managed
allocation.  `object` is the stored base address, `size` the byte
extent, `mark` the record's mark epoch, `destroyBound` whether the
type-erased finalizer `destroy` has been bound (the source stores a
function pointer that starts out null), and `pointers` the addresses of
the handles currently bound to this record.  The diagnostic
`source`/`line` fields are never read by the collector and are omitted. -/
structure ObjectInfo where
  object : Nat
  size : Nat
  mark : Bool
  destroyBound : Bool
  pointers : List Nat
  deriving Repr, DecidableEq

/-- One live handle instance (`Ptr<T>` / `RootPtr<T>`): `addr` is the
handle's own storage address (the identity of the C++ object, and what
the conservative scan tests), `isRoot` the value of the virtual
`IsRoot()`, `object` the target address (`none` models a null target)
and `info` the key of the bound registry record (`none` models a null
`info` pointer). -/
structure HandleRec where
  addr : Nat
  isRoot : Bool
  object : Option Nat
  info : Option Nat
  deriving Repr, DecidableEq

/-- The process-wide `MemoryManager` state: the object registry (sorted
by address, as a `std::map` is), the global handle registry in
registration order, the live byte counter and the current mark epoch. -/
structure GCState where
  objects : List (Nat × ObjectInfo)
  pointers : List HandleRec
  allocatedBytes : Nat
  currentMark : Bool
  deriving Repr, DecidableEq

/-- Lookup in the object registry (`objects.find(a)`). -/
def alookup : List (Nat × ObjectInfo) → Nat → Option ObjectInfo
  | [], _ => none
  | q :: t, a => if q.1 = a then some q.2 else alookup t a

/-- Update every registry entry with the given key in place. -/
def aupdate (l : List (Nat × ObjectInfo)) (a : Nat) (f : ObjectInfo → ObjectInfo) :
    List (Nat × ObjectInfo) :=
  l.map (fun q => if q.1 = a then (q.1, f q.2) else q)

/-- Key-ordered insertion, replacing an existing binding
(`objects[res] = objInfo`). -/
def insertObj : List (Nat × ObjectInfo) → Nat → ObjectInfo → List (Nat × ObjectInfo)
  | [], a, i => [(a, i)]
  | q :: t, a, i =>
    if a < q.1 then (a, i) :: q :: t
    else if a = q.1 then (a, i) :: t
    else q :: insertObj t a i

/-- Find a handle in the global handle registry by its storage address. -/
def findH : List HandleRec → Nat → Option HandleRec
  | [], _ => none
  | h :: t, p => if h.addr = p then some h else findH t p

/-- Remove the first handle with the given storage address
(`std::find` + `erase` on `MemoryManager::pointers`). -/
def removeH : List HandleRec → Nat → List HandleRec
  | [], _ => []
  | h :: t, p => if h.addr = p then t else h :: removeH t p

/-- Remove the first occurrence of a handle address from a record's
`pointers` list (`std::find` + `erase` on `ObjectInfo::pointers`). -/
def eraseFirstNat : List Nat → Nat → List Nat
  | [], _ => []
  | x :: t, p => if x = p then t else x :: eraseFirstNat t p

/-- Remove every registry entry with the given key (`objects.erase`;
keys are unique in a `std::map`, so at most one entry is removed). -/
def eraseKey : List (Nat × ObjectInfo) → Nat → List (Nat × ObjectInfo)
  | [], _ => []
  | q :: t, a => if q.1 = a then eraseKey t a else q :: eraseKey t a

/-- Overwrite the target and bound-record fields of the handle stored at
address `p`. -/
def updateFields (s : GCState) (p : Nat) (o i : Option Nat) : GCState :=
  { s with pointers := s.pointers.map (fun h =>
      if h.addr = p then { h with object := o, info := i } else h) }

/-- `IPtr::MarkInvalid` applied to the handle stored at address `p`:
both the target and the record back-reference become null. -/
def setInvalid (s : GCState) (p : Nat) : GCState :=
  updateFields s p none none

/-- `operator new(size, source, line)`: obtain storage at a fresh
address, create a record tagged with the collector's current mark epoch,
with no finalizer bound and no bound handles, and account the bytes. -/
def opNew (s : GCState) (addr sz : Nat) : GCState :=
  { s with
    objects := insertObj s.objects addr
      { object := addr, size := sz, mark := s.currentMark,
        destroyBound := false, pointers := [] },
    allocatedBytes := s.allocatedBytes + sz }

/-- Default construction `Ptr()` / `RootPtr()`: null target, null
record, registered at the end of the global handle registry. -/
def ptrCtorDefault (s : GCState) (p : Nat) (root : Bool) : GCState :=
  { s with pointers := s.pointers ++ [⟨p, root, none, none⟩] }

/-- Construction from a raw address `Ptr(T*)`: the target is stored
unconditionally; if the registry knows the address the handle binds
(joins the record's `pointers`, and the record's finalizer is bound if
it was not yet — binding it unconditionally is observationally equal
since only bound/unbound is visible to the model).  On a registry miss
— including a null argument (`t = none`), which misses the lookup — the
source constructor has no `else` branch and `IPtr` declares no member
initializer, so the record reference is never assigned: it keeps the
indeterminate prior contents of the handle's storage, passed here as
`j`. -/
def ptrCtorRaw (s : GCState) (p : Nat) (root : Bool) (t : Option Nat)
    (j : Option Nat) : GCState :=
  match t with
  | none => { s with pointers := s.pointers ++ [⟨p, root, none, j⟩] }
  | some a =>
    match alookup s.objects a with
    | some _ =>
      let s1 := { s with objects := aupdate s.objects a (fun i =>
        { i with pointers := i.pointers ++ [p], destroyBound := true }) }
      { s1 with pointers := s1.pointers ++ [⟨p, root, some a, some a⟩] }
    | none => { s with pointers := s.pointers ++ [⟨p, root, some a, j⟩] }

/-- Copy construction `Ptr(const Ptr&)`: share the source's target and
record, join the record's bound-handle list when bound (the finalizer is
not touched), and register independently. -/
def ptrCtorCopy (s : GCState) (p : Nat) (root : Bool) (src : Nat) : GCState :=
  match findH s.pointers src with
  | none => s
  | some o =>
    let s1 := match o.info with
      | some a => { s with objects := aupdate s.objects a (fun i =>
          { i with pointers := i.pointers ++ [p] }) }
      | none => s
    { s1 with pointers := s1.pointers ++ [⟨p, root, o.object, o.info⟩] }

/-- Destruction `~Ptr()`: leave the bound record's `pointers` list, then
leave the global handle registry. -/
def ptrDtor (s : GCState) (p : Nat) : GCState :=
  let s1 := match findH s.pointers p with
    | some h =>
      match h.info with
      | some c => { s with objects := aupdate s.objects c (fun i =>
          { i with pointers := eraseFirstNat i.pointers p }) }
      | none => s
    | none => s
  { s1 with pointers := removeH s1.pointers p }

/-- Assignment from another handle `operator=(const Ptr&)`: unbind from
the current record first, copy the source's target and record, rebind.
Safe under self-assignment, as in the source. -/
def ptrAssignCopy (s : GCState) (p src : Nat) : GCState :=
  match findH s.pointers p with
  | none => s
  | some h =>
    let s1 := match h.info with
      | some c => { s with objects := aupdate s.objects c (fun i =>
          { i with pointers := eraseFirstNat i.pointers p }) }
      | none => s
    match findH s1.pointers src with
    | none => s1
    | some o =>
      let s2 := updateFields s1 p o.object o.info
      match o.info with
      | some a => { s2 with objects := aupdate s2.objects a (fun i =>
          { i with pointers := i.pointers ++ [p] }) }
      | none => s2

/-- Assignment from a raw address `operator=(T*)`: unbind from the
current record, store the target, then bind-or-dangle exactly as raw
construction does. -/
def ptrAssignRaw (s : GCState) (p : Nat) (t : Option Nat) : GCState :=
  match findH s.pointers p with
  | none => s
  | some h =>
    let s1 := match h.info with
      | some c => { s with objects := aupdate s.objects c (fun i =>
          { i with pointers := eraseFirstNat i.pointers p }) }
      | none => s
    match t with
    | none => updateFields s1 p none none
    | some a =>
      match alookup s1.objects a with
      | some _ =>
        let s2 := { s1 with objects := aupdate s1.objects a (fun i =>
          { i with pointers := i.pointers ++ [p], destroyBound := true }) }
        updateFields s2 p (some a) (some a)
      | none => updateFields s1 p (some a) none

/-- Invalidate the handles stored at the listed addresses, in order. -/
def invalidateList (s : GCState) : List Nat → GCState
  | [] => s
  | p :: rest => invalidateList (setInvalid s p) rest

/-- `operator delete(void*)`: if the address is registered, give back
its bytes, invalidate every bound handle, and drop the record; an
unknown address is released with no bookkeeping at all. -/
def opDelete (s : GCState) (a : Nat) : GCState :=
  match alookup s.objects a with
  | none => s
  | some i =>
    let s1 := { s with allocatedBytes := s.allocatedBytes - i.size }
    let s2 := invalidateList s1 i.pointers
    { s2 with objects := eraseKey s2.objects a }

/-- Set a record's mark to the current epoch (first line of
`MemoryManager::MarkObject`). -/
def markRecord (s : GCState) (a : Nat) : GCState :=
  { s with objects := aupdate s.objects a (fun i => { i with mark := s.currentMark }) }

/-- The scan loop of `MarkObject`: walk the whole handle registry; for
every handle whose own storage address lies inside `[l, l+z)` and whose
bound record is not yet at the current epoch, recurse (`mo`) into that
record. -/
def markLoopGo (mo : GCState → Nat → Option GCState) (l z : Nat) :
    GCState → List HandleRec → Option GCState
  | s, [] => some s
  | s, h :: rest =>
    if l ≤ h.addr ∧ h.addr < l + z then
      match h.info with
      | some b =>
        match alookup s.objects b with
        | some bi =>
          if bi.mark ≠ s.currentMark then
            match mo s b with
            | none => none
            | some s' => markLoopGo mo l z s' rest
          else markLoopGo mo l z s rest
        | none => markLoopGo mo l z s rest
      | none => markLoopGo mo l z s rest
    else markLoopGo mo l z s rest

/-- `MemoryManager::MarkObject`, with an explicit bound `fuel` on the
recursion depth (the C++ call stack).  `none` signals that the depth
bound was exhausted; the collector's bound is proved sufficient below.
Marking a record sets its epoch first and then scans the handle
registry against the record's address range. -/
def markObjectO : Nat → GCState → Nat → Option GCState
  | 0, _, _ => none
  | fuel + 1, s, a =>
    match alookup s.objects a with
    | none => some s
    | some i =>
      let s1 := markRecord s a
      markLoopGo (markObjectO fuel) i.object i.size s1 s1.pointers

/-- The root scan of `CollectGarbage`: for every registered handle that
is a root and is bound, mark its record. -/
def markRoots (s : GCState) : List HandleRec → Option GCState
  | [] => some s
  | h :: rest =>
    if h.isRoot then
      match h.info with
      | some a =>
        match markObjectO (s.objects.length + 1) s a with
        | none => none
        | some s' => markRoots s' rest
      | none => markRoots s rest
    else markRoots s rest

/-- Run the finalizer of a swept record: the object's destructor
destroys the handles embedded in the allocation, i.e. every registered
handle whose own storage address lies inside `[l, l+z)` runs `~Ptr()`. -/
def destructEmbedded (s : GCState) (l z : Nat) : GCState :=
  let embedded := (s.pointers.filter
      (fun h => decide (l ≤ h.addr ∧ h.addr < l + z))).map (fun h => h.addr)
  destructList s embedded
where
  /-- Destroy the handles stored at the listed addresses, in order. -/
  destructList (s : GCState) : List Nat → GCState
  | [] => s
  | p :: rest => destructList (ptrDtor s p) rest

/-- Sweep one record: give back its bytes, run the finalizer (destroying
the embedded handles), invalidate every still-bound handle, and erase
the record.  Only called on records whose finalizer is bound. -/
def sweepOne (s : GCState) (a : Nat) : GCState :=
  match alookup s.objects a with
  | none => s
  | some i =>
    let s1 := { s with allocatedBytes := s.allocatedBytes - i.size }
    let s2 := destructEmbedded s1 i.object i.size
    let s3 := match alookup s2.objects a with
      | some i2 => invalidateList s2 i2.pointers
      | none => s2
    { s3 with objects := eraseKey s3.objects a }

/-- Result of one collection: either the post-sweep state together with
the addresses finalized in order, or the fatal crash reached by calling
an unbound (null) finalizer, recorded with the state and the finalized
prefix at the crash and the offending address. -/
inductive CollectOutcome where
  | ok (s : GCState) (finalized : List Nat)
  | fatal (s : GCState) (finalized : List Nat) (addr : Nat)
  deriving Repr, DecidableEq

/-- The sweep loop of `CollectGarbage` over the pre-computed list of
stale records.  Reaching a record whose finalizer was never bound calls
a null function pointer: a fatal crash (after the byte counter was
already decremented, as in the source). -/
def sweepLoop (s : GCState) : List Nat → List Nat → CollectOutcome
  | [], fin => .ok s fin
  | a :: rest, fin =>
    match alookup s.objects a with
    | none => sweepLoop s rest fin
    | some i =>
      if i.destroyBound then sweepLoop (sweepOne s a) rest (fin ++ [a])
      else .fatal { s with allocatedBytes := s.allocatedBytes - i.size } fin a

/-- Flip the current mark epoch (first line of `CollectGarbage`). -/
def flipMark (s : GCState) : GCState :=
  { s with currentMark := !s.currentMark }

/-- The records selected for sweeping: those left at the stale epoch
after the mark phase, in registry order. -/
def freeListOf (s1 : GCState) : List Nat :=
  (s1.objects.filter (fun q => decide (q.2.mark ≠ s1.currentMark))).map (fun q => q.1)

/-- `MemoryManager::CollectGarbage`: flip the epoch, mark from every
bound root handle, collect the records left at the stale epoch, and
sweep them in registry (address) order.  `none` only signals exhaustion
of the mark-depth bound, which is proved impossible below. -/
def CollectGarbage (s : GCState) : Option CollectOutcome :=
  let s0 := flipMark s
  match markRoots s0 s0.pointers with
  | none => none
  | some s1 => some (sweepLoop s1 (freeListOf s1) [])

/-- `Ptr::IsValid`: the target is non-null. -/
def HandleRec.isValid (h : HandleRec) : Bool :=
  h.object.isSome

/-- Whether an address is registered. -/
def isRegistered (s : GCState) (a : Nat) : Bool :=
  (alookup s.objects a).isSome

/-- Whether a record is at the current mark epoch. -/
def isMarked (s : GCState) (a : Nat) : Bool :=
  match alookup s.objects a with
  | some i => i.mark == s.currentMark
  | none => false

/-- Number of records not at the current epoch: the measure that bounds
the marking recursion depth. -/
def unmarkedCount (s : GCState) : Nat :=
  (s.objects.filter (fun q => decide (q.2.mark ≠ s.currentMark))).length

/-- One conservative reference edge, in the words of the specification:
record `a` reaches record `b` when some registered handle's own storage
address lies inside `[a.address, a.address + a.size)` and that handle is
bound to the (registered) record `b`. -/
def Edge (s : GCState) (a b : Nat) : Prop :=
  ∃ i h, alookup s.objects a = some i ∧ h ∈ s.pointers ∧
    i.object ≤ h.addr ∧ h.addr < i.object + i.size ∧
    h.info = some b ∧ isRegistered s b = true

/-- A record directly held by a Root Handle. -/
def RootReach (s : GCState) (b : Nat) : Prop :=
  ∃ h, h ∈ s.pointers ∧ h.isRoot = true ∧ h.info = some b ∧ isRegistered s b = true

/-- Reachability from the Root Handles by bound-address-range-embedding,
transitively. -/
def Reachable (s : GCState) (b : Nat) : Prop :=
  ∃ r, RootReach s r ∧ Relation.ReflTransGen (Edge s) r b

/-- Registry keys are pairwise distinct (a `std::map` invariant). -/
def keysNodup (s : GCState) : Prop :=
  (s.objects.map (fun q => q.1)).Nodup

/-- All records carry the current epoch: the steady state between
collections (fresh records are born with it and a completed collection
re-establishes it). -/
def marksUniform (s : GCState) : Prop :=
  ∀ q ∈ s.objects, q.2.mark = s.currentMark

/-- Every record's finalizer has been bound by some typed handle. -/
def allBound (s : GCState) : Prop :=
  ∀ q ∈ s.objects, q.2.destroyBound = true

/-- Live handles occupy pairwise distinct storage addresses. -/
def handlesNodup (s : GCState) : Prop :=
  (s.pointers.map (fun h => h.addr)).Nodup

/-- No record lists the same bound handle twice. -/
def recPtrsNodup (s : GCState) : Prop :=
  ∀ q ∈ s.objects, q.2.pointers.Nodup

/-- Every handle bound to a record is listed in that record's
bound-handle list, and the record exists. -/
def boundListed (s : GCState) : Prop :=
  ∀ h ∈ s.pointers, ∀ a, h.info = some a →
    ∃ i, alookup s.objects a = some i ∧ h.addr ∈ i.pointers

/-- Every entry of a record's bound-handle list names a registered
handle bound to exactly that record. -/
def listedBound (s : GCState) : Prop :=
  ∀ q ∈ s.objects, ∀ p ∈ q.2.pointers,
    ∃ h, h ∈ s.pointers ∧ h.addr = p ∧ h.info = some q.1

/-- Registered allocations occupy pairwise disjoint address ranges. -/
def disjointRecs (s : GCState) : Prop :=
  ∀ q ∈ s.objects, ∀ r ∈ s.objects, q.1 ≠ r.1 →
    q.2.object + q.2.size ≤ r.2.object ∨ r.2.object + r.2.size ≤ q.2.object

/-- No Root Handle's own storage lies inside any registered allocation
(roots are stack-resident, as the design intends). -/
def rootsOutside (s : GCState) : Prop :=
  ∀ h ∈ s.pointers, h.isRoot = true →
    ∀ q ∈ s.objects, ¬ (q.2.object ≤ h.addr ∧ h.addr < q.2.object + q.2.size)

/-- The registered addresses, in registry order. -/
def keysOf (s : GCState) : List Nat :=
  s.objects.map (fun q => q.1)

/-- Pointwise relation between a registry entry before and after some
marking: everything but the mark is unchanged, and a record already at
the epoch `cur` stays at it. -/
def RecMono (cur : Bool) (p q : Nat × ObjectInfo) : Prop :=
  q.1 = p.1 ∧ q.2.object = p.2.object ∧ q.2.size = p.2.size ∧
  q.2.destroyBound = p.2.destroyBound ∧ q.2.pointers = p.2.pointers ∧
  (p.2.mark = cur → q.2.mark = cur)

/-- What the mark phase preserves: the handle registry, the epoch, the
byte counter, and every record field except the (monotonically updated)
mark. -/
def MarkPre (s t : GCState) : Prop :=
  t.pointers = s.pointers ∧ t.currentMark = s.currentMark ∧
  t.allocatedBytes = s.allocatedBytes ∧
  List.Forall₂ (RecMono s.currentMark) s.objects t.objects

/-- The fields of a record that the sweep-internal handle bookkeeping
(destructor runs and invalidation) never touches. -/
def recShape (i : ObjectInfo) : Nat × Nat × Bool × Bool :=
  (i.object, i.size, i.mark, i.destroyBound)

/-- What the bookkeeping inside one sweep step preserves: the epoch and
every record's address, size, mark and finalizer binding. -/
def ShapePre (s t : GCState) : Prop :=
  t.currentMark = s.currentMark ∧
  ∀ x, (alookup t.objects x).map recShape = (alookup s.objects x).map recShape

/-- The handle stored at address `p`, if any. -/
def handleAt (s : GCState) (p : Nat) : Option HandleRec :=
  findH s.pointers p

/-- How many entries of the global handle registry carry the given
storage address. -/
def countAddr (s : GCState) (p : Nat) : Nat :=
  s.pointers.countP (fun h => h.addr == p)

/-- Structural well-formedness of a heap state, as every state produced
by the API satisfies: distinct registry keys, distinct handle storage
addresses, duplicate-free bound-handle lists, and bound-handle lists
that agree with the handles' record references in both directions. -/
def WFState (s : GCState) : Prop :=
  keysNodup s ∧ handlesNodup s ∧ recPtrsNodup s ∧ boundListed s ∧ listedBound s

/-- The handle-side invariants that the sweep's internal bookkeeping
maintains step by step. -/
def HandleInv (s : GCState) : Prop :=
  handlesNodup s ∧ recPtrsNodup s ∧ boundListed s ∧ listedBound s

/-- Decidability of the option-guarded universal used by the handle
invariants. -/
instance decForallSome {o : Option Nat} {Q : Nat → Prop} [∀ a, Decidable (Q a)] :
    Decidable (∀ a, o = some a → Q a) :=
  match o with
  | none => isTrue fun _ h => nomatch h
  | some b =>
    if hq : Q b then isTrue (fun a h => by cases h; exact hq)
    else isFalse (fun hall => hq (hall b rfl))

/-- Decidability of the option-guarded existential used by the handle
invariants. -/
instance decExSome {o : Option ObjectInfo} {P : ObjectInfo → Prop}
    [∀ i, Decidable (P i)] : Decidable (∃ i, o = some i ∧ P i) :=
  match o with
  | none => isFalse (by rintro ⟨i, h, _⟩; cases h)
  | some j =>
    if hp : P j then isTrue ⟨j, rfl, hp⟩
    else isFalse (by rintro ⟨i, h, hpi⟩; cases h; exact hp hpi)

instance (s : GCState) : Decidable (keysNodup s) := by
  unfold keysNodup; infer_instance

instance (s : GCState) : Decidable (marksUniform s) := by
  unfold marksUniform; infer_instance

instance (s : GCState) : Decidable (allBound s) := by
  unfold allBound; infer_instance

instance (s : GCState) : Decidable (handlesNodup s) := by
  unfold handlesNodup; infer_instance

instance (s : GCState) : Decidable (recPtrsNodup s) := by
  unfold recPtrsNodup; infer_instance

instance (s : GCState) : Decidable (boundListed s) := by
  unfold boundListed; infer_instance

instance (s : GCState) : Decidable (listedBound s) := by
  unfold listedBound; infer_instance

instance (s : GCState) : Decidable (disjointRecs s) := by
  unfold disjointRecs; infer_instance

instance (s : GCState) : Decidable (rootsOutside s) := by
  unfold rootsOutside; infer_instance

instance (s : GCState) : Decidable (WFState s) := by
  unfold WFState; infer_instance

/-- The empty heap. -/
def emptyState : GCState :=
  { objects := [], pointers := [], allocatedBytes := 0, currentMark := true }

/-- The demonstration scenario of `main()`: root-held `A` (at 100, with
embedded handles `pb` at 100 and `pc` at 108) referencing `B` (at 200,
embedded `pc` at 200) and `C` (at 300, embedded `pd` at 300); `C`
references `D` (at 400, embedded `pc` at 400); `D` references back `C`;
then `A`'s reference to `C` is cleared.  The root handle `pa` lives on
the stack at 10. -/
def scenarioState : GCState :=
  let s1 := opNew emptyState 100 16
  let s2 := ptrCtorDefault s1 100 false
  let s3 := ptrCtorDefault s2 108 false
  let s4 := ptrCtorRaw s3 10 true (some 100) none
  let s5 := opNew s4 200 8
  let s6 := ptrCtorDefault s5 200 false
  let s7 := ptrAssignRaw s6 100 (some 200)
  let s8 := opNew s7 300 8
  let s9 := ptrCtorDefault s8 300 false
  let s10 := ptrAssignRaw s9 108 (some 300)
  let s11 := opNew s10 400 8
  let s12 := ptrCtorDefault s11 400 false
  let s13 := ptrAssignRaw s12 300 (some 400)
  let s14 := ptrAssignCopy s13 400 108
  ptrAssignRaw s14 108 none

/-- A heap in which a Root Handle (at address 100) is stored inside a
managed allocation `[100, 108)` that no root reaches, while being bound
to a second record at 200: the misuse the design notes warn about
(a root embedded in a collectable object). -/
def rootInObjState : GCState :=
  { objects :=
      [(100, { object := 100, size := 8, mark := true, destroyBound := true,
               pointers := [] }),
       (200, { object := 200, size := 8, mark := true, destroyBound := true,
               pointers := [100] })],
    pointers := [{ addr := 100, isRoot := true, object := some 200, info := some 200 }],
    allocatedBytes := 16, currentMark := true }

/-- `rootInObjState` after one collection: the allocation holding the
root was swept, destroying the root handle with it. -/
def rootInObjAfter1 : GCState :=
  { objects :=
      [(200, { object := 200, size := 8, mark := false, destroyBound := true,
               pointers := [] })],
    pointers := [], allocatedBytes := 8, currentMark := false }

/-- The heap left by `collect()` in the demonstration scenario: `A` and
`B` survive (with the root still bound to `A`), the handles that were
bound to `C` and to the cleared target are invalid, and `C` and `D` are
gone. -/
def scenarioAfter : GCState :=
  { objects :=
      [(100, { object := 100, size := 16, mark := false, destroyBound := true,
               pointers := [10] }),
       (200, { object := 200, size := 8, mark := false, destroyBound := true,
               pointers := [100] })],
    pointers :=
      [{ addr := 100, isRoot := false, object := some 200, info := some 200 },
       { addr := 108, isRoot := false, object := none, info := none },
       { addr := 10, isRoot := true, object := some 100, info := some 100 },
       { addr := 200, isRoot := false, object := none, info := none }],
    allocatedBytes := 24,
    currentMark := false }

/-! ### Association-list basics -/

theorem aupdate_cons (q : Nat × ObjectInfo) (t : List (Nat × ObjectInfo)) (a : Nat)
    (f : ObjectInfo → ObjectInfo) :
    aupdate (q :: t) a f = (if q.1 = a then (q.1, f q.2) else q) :: aupdate t a f := rfl

theorem alookup_aupdate (l : List (Nat × ObjectInfo)) (a : Nat) (f : ObjectInfo → ObjectInfo)
    (x : Nat) :
    alookup (aupdate l a f) x = if x = a then (alookup l x).map f else alookup l x := by
  induction l with
  | nil => simp [alookup, aupdate]
  | cons q t ih =>
    obtain ⟨k, v⟩ := q
    rw [aupdate_cons]
    by_cases hk : k = a
    · subst hk
      by_cases hx : k = x
      · subst hx
        simp [alookup]
      · simp [alookup, hx, ih, show ¬ x = k from fun h => hx h.symm]
    · by_cases hx : k = x
      · subst hx
        simp [alookup, hk, show ¬ k = a from hk]
      · simp [alookup, hk, hx, ih]

theorem keys_aupdate (l : List (Nat × ObjectInfo)) (a : Nat) (f : ObjectInfo → ObjectInfo) :
    (aupdate l a f).map (fun q => q.1) = l.map (fun q => q.1) := by
  induction l with
  | nil => rfl
  | cons q t ih =>
    by_cases hqa : q.1 = a <;> simp [aupdate, hqa] <;>
      simpa [aupdate] using ih

theorem alookup_none_iff (l : List (Nat × ObjectInfo)) (x : Nat) :
    alookup l x = none ↔ x ∉ l.map (fun q => q.1) := by
  induction l with
  | nil => simp [alookup]
  | cons q t ih =>
    obtain ⟨k, v⟩ := q
    by_cases hk : k = x
    · subst hk
      simp [alookup]
    · simp [alookup, hk, ih, show ¬ x = k from fun h => hk h.symm]

theorem alookup_isSome_iff (l : List (Nat × ObjectInfo)) (x : Nat) :
    (alookup l x).isSome = true ↔ x ∈ l.map (fun q => q.1) := by
  constructor
  · intro hs
    by_contra hmem
    rw [← alookup_none_iff] at hmem
    rw [hmem] at hs
    simp at hs
  · intro hmem
    cases h : alookup l x with
    | some i => rfl
    | none => exact absurd hmem ((alookup_none_iff l x).mp h)

theorem alookup_insertObj (l : List (Nat × ObjectInfo)) (a : Nat) (i : ObjectInfo) (x : Nat) :
    alookup (insertObj l a i) x = if x = a then some i else alookup l x := by
  induction l with
  | nil => simp [alookup, insertObj, eq_comm]
  | cons q t ih =>
    obtain ⟨k, v⟩ := q
    rcases Nat.lt_trichotomy a k with hlt | heq | hgt
    · have h1 : ¬ a = k := Nat.ne_of_lt hlt
      by_cases hx : x = a
      · subst hx
        simp [insertObj, alookup, hlt, eq_comm]
      · simp [insertObj, alookup, hlt, hx, show ¬ a = x from fun h => hx h.symm]
    · subst heq
      by_cases hx : x = a
      · subst hx
        simp [insertObj, alookup, Nat.lt_irrefl]
      · simp [insertObj, alookup, Nat.lt_irrefl, hx,
          show ¬ a = x from fun h => hx h.symm]
    · have h1 : ¬ a < k := Nat.not_lt_of_lt hgt
      have h2 : ¬ a = k := (Nat.ne_of_lt hgt).symm
      by_cases hkx : k = x
      · subst hkx
        simp [insertObj, alookup, h1, h2, show ¬ k = a from fun h => h2 h.symm]
      · simp [insertObj, alookup, h1, h2, hkx, ih]

theorem keys_insertObj_perm (l : List (Nat × ObjectInfo)) (a : Nat) (i : ObjectInfo)
    (ha : alookup l a = none) :
    ((insertObj l a i).map (fun q => q.1)).Perm (a :: l.map (fun q => q.1)) := by
  induction l with
  | nil => simp [insertObj]
  | cons q t ih =>
    obtain ⟨k, v⟩ := q
    have hka : ¬ k = a := by
      intro h
      simp [alookup, h] at ha
    have ha' : alookup t a = none := by simpa [alookup, hka] using ha
    rcases Nat.lt_trichotomy a k with hlt | heq | hgt
    · simp [insertObj, hlt]
    · exact absurd heq.symm hka
    · have h1 : ¬ a < k := Nat.not_lt_of_lt hgt
      have h2 : ¬ a = k := (Nat.ne_of_lt hgt).symm
      simp only [insertObj, h1, if_neg, h2, List.map_cons]
      exact ((ih ha').cons k).trans (List.Perm.swap a k _)

theorem keys_insertObj_nodup (l : List (Nat × ObjectInfo)) (a : Nat) (i : ObjectInfo)
    (hn : (l.map (fun q => q.1)).Nodup) (ha : alookup l a = none) :
    ((insertObj l a i).map (fun q => q.1)).Nodup := by
  refine ((keys_insertObj_perm l a i ha).nodup_iff).mpr ?_
  exact List.nodup_cons.mpr ⟨(alookup_none_iff l a).mp ha, hn⟩

theorem alookup_eraseKey (l : List (Nat × ObjectInfo)) (a x : Nat) :
    alookup (eraseKey l a) x = if x = a then none else alookup l x := by
  induction l with
  | nil => simp [alookup, eraseKey]
  | cons q t ih =>
    obtain ⟨k, v⟩ := q
    by_cases hka : k = a
    · subst hka
      by_cases hx : x = k
      · subst hx
        simp [eraseKey, ih]
      · simp [eraseKey, alookup, hx, ih, show ¬ k = x from fun h => hx h.symm]
    · by_cases hkx : k = x
      · subst hkx
        simp [eraseKey, alookup, hka, show ¬ k = a from hka]
      · simp [eraseKey, alookup, hka, hkx, ih]

theorem keys_eraseKey_sublist (l : List (Nat × ObjectInfo)) (a : Nat) :
    ((eraseKey l a).map (fun q => q.1)).Sublist (l.map (fun q => q.1)) := by
  induction l with
  | nil => simp [eraseKey]
  | cons q t ih =>
    by_cases hqa : q.1 = a
    · simp only [eraseKey, hqa, if_pos, List.map_cons]
      exact ih.trans (List.sublist_cons_self _ _)
    · simp only [eraseKey, hqa, if_neg, List.map_cons, not_false_iff]
      exact ih.cons₂ _

theorem alookup_mem {l : List (Nat × ObjectInfo)} {x : Nat} {i : ObjectInfo}
    (h : alookup l x = some i) : (x, i) ∈ l := by
  induction l with
  | nil => simp [alookup] at h
  | cons q t ih =>
    by_cases hq : q.1 = x
    · simp only [alookup, hq, if_pos] at h
      cases h
      obtain ⟨k, v⟩ := q
      simp at hq
      rw [← hq]
      exact List.mem_cons_self _ _
    · simp only [alookup, hq, if_neg, not_false_iff] at h
      exact List.mem_cons_of_mem _ (ih h)

theorem mem_alookup_of_nodup {l : List (Nat × ObjectInfo)} {x : Nat} {i : ObjectInfo}
    (hn : (l.map (fun q => q.1)).Nodup) (h : (x, i) ∈ l) : alookup l x = some i := by
  induction l with
  | nil => simp at h
  | cons q t ih =>
    simp only [List.map_cons, List.nodup_cons] at hn
    rcases List.mem_cons.mp h with h1 | h1
    · rw [← h1]
      simp [alookup]
    · have hqx : ¬ q.1 = x := by
        intro hq
        exact hn.1 (hq ▸ (List.mem_map.mpr ⟨(x, i), h1, rfl⟩))
      simp only [alookup, hqx, if_neg, not_false_iff]
      exact ih hn.2 h1


/-! ### Mark-phase preservation -/

theorem recMono_refl (cur : Bool) (p : Nat × ObjectInfo) : RecMono cur p p :=
  ⟨rfl, rfl, rfl, rfl, rfl, fun h => h⟩

theorem recMono_trans {cur : Bool} {p q r : Nat × ObjectInfo}
    (h1 : RecMono cur p q) (h2 : RecMono cur q r) : RecMono cur p r := by
  obtain ⟨a1, b1, c1, d1, e1, f1⟩ := h1
  obtain ⟨a2, b2, c2, d2, e2, f2⟩ := h2
  exact ⟨a2.trans a1, b2.trans b1, c2.trans c1, d2.trans d1, e2.trans e1,
    fun h => f2 (f1 h)⟩

theorem forall2_trans_recMono {cur : Bool} :
    ∀ {l m n : List (Nat × ObjectInfo)}, List.Forall₂ (RecMono cur) l m →
      List.Forall₂ (RecMono cur) m n → List.Forall₂ (RecMono cur) l n := by
  intro l m n h1
  induction h1 generalizing n with
  | nil =>
    intro h2
    cases h2
    exact List.Forall₂.nil
  | cons hpq hrest ih =>
    intro h2
    cases h2 with
    | cons hqr hrest2 => exact List.Forall₂.cons (recMono_trans hpq hqr) (ih hrest2)

theorem forall2_map_self {α : Type} {r : α → α → Prop} {g : α → α} :
    ∀ (l : List α), (∀ x ∈ l, r x (g x)) → List.Forall₂ r l (l.map g) := by
  intro l
  induction l with
  | nil =>
    intro _
    exact List.Forall₂.nil
  | cons x t ih =>
    intro h
    exact List.Forall₂.cons (h x (List.mem_cons_self x t))
      (ih fun y hy => h y (List.mem_cons_of_mem x hy))

theorem mp_refl (s : GCState) : MarkPre s s :=
  ⟨rfl, rfl, rfl, List.forall₂_same.mpr fun x _ => recMono_refl _ x⟩

theorem mp_trans {s t u : GCState} (h1 : MarkPre s t) (h2 : MarkPre t u) : MarkPre s u := by
  obtain ⟨p1, c1, b1, f1⟩ := h1
  obtain ⟨p2, c2, b2, f2⟩ := h2
  rw [c1] at f2
  exact ⟨p2.trans p1, c2.trans c1, b2.trans b1, forall2_trans_recMono f1 f2⟩

theorem mp_markRecord (s : GCState) (a : Nat) : MarkPre s (markRecord s a) := by
  refine ⟨rfl, rfl, rfl, ?_⟩
  apply forall2_map_self
  intro q _
  by_cases hq : q.1 = a
  · exact ⟨by simp [hq], by simp [hq], by simp [hq], by simp [hq], by simp [hq],
      fun _ => by simp [hq]⟩
  · simp only [hq, if_neg, not_false_iff]
    exact recMono_refl _ q

theorem forall2_alookup {c : Bool} :
    ∀ {l m : List (Nat × ObjectInfo)}, List.Forall₂ (RecMono c) l m → ∀ x : Nat,
      (alookup l x = none ∧ alookup m x = none) ∨
      ∃ i j, alookup l x = some i ∧ alookup m x = some j ∧ RecMono c (x, i) (x, j) := by
  intro l m h
  induction h with
  | nil =>
    intro x
    exact Or.inl ⟨rfl, rfl⟩
  | cons hpq hrest ih =>
    intro x
    rename_i p q l' m'
    by_cases hp : p.1 = x
    · right
      have hq : q.1 = x := hpq.1.trans hp
      refine ⟨p.2, q.2, by simp [alookup, hp], by simp [alookup, hq], ?_⟩
      obtain ⟨_, b, c', d, e, f⟩ := hpq
      exact ⟨rfl, b, c', d, e, f⟩
    · have hq : ¬ q.1 = x := fun h => hp (hpq.1 ▸ h)
      simpa [alookup, hp, hq] using ih x

theorem forall2_keys {c : Bool} :
    ∀ {l m : List (Nat × ObjectInfo)}, List.Forall₂ (RecMono c) l m →
      m.map (fun q => q.1) = l.map (fun q => q.1) := by
  intro l m h
  induction h with
  | nil => rfl
  | cons hpq hrest ih => simp [hpq.1, ih]

theorem mp_alookup_none {s t : GCState} (hm : MarkPre s t) (x : Nat) :
    alookup t.objects x = none ↔ alookup s.objects x = none := by
  rcases forall2_alookup hm.2.2.2 x with ⟨h1, h2⟩ | ⟨i, j, h1, h2, _⟩
  · simp [h1, h2]
  · simp [h1, h2]

theorem mp_alookup_some {s t : GCState} {x : Nat} {i : ObjectInfo} (hm : MarkPre s t)
    (hx : alookup s.objects x = some i) :
    ∃ j, alookup t.objects x = some j ∧ j.object = i.object ∧ j.size = i.size ∧
      j.destroyBound = i.destroyBound ∧ j.pointers = i.pointers ∧
      (i.mark = s.currentMark → j.mark = s.currentMark) := by
  rcases forall2_alookup hm.2.2.2 x with ⟨h1, _⟩ | ⟨i', j, h1, h2, hr⟩
  · rw [hx] at h1
    cases h1
  · rw [hx] at h1
    cases h1
    exact ⟨j, h2, hr.2.1, hr.2.2.1, hr.2.2.2.1, hr.2.2.2.2.1, hr.2.2.2.2.2⟩

theorem mp_isRegistered {s t : GCState} (hm : MarkPre s t) (x : Nat) :
    isRegistered t x = isRegistered s x := by
  unfold isRegistered
  rcases forall2_alookup hm.2.2.2 x with ⟨h1, h2⟩ | ⟨i, j, h1, h2, _⟩
  · simp [h1, h2]
  · simp [h1, h2]

theorem mp_keys {s t : GCState} (hm : MarkPre s t) : keysOf t = keysOf s :=
  forall2_keys hm.2.2.2

theorem mp_isMarked {s t : GCState} {x : Nat} (hm : MarkPre s t)
    (h : isMarked s x = true) : isMarked t x = true := by
  unfold isMarked at h ⊢
  cases hl : alookup s.objects x with
  | none => rw [hl] at h; simp at h
  | some i =>
    rw [hl] at h
    obtain ⟨j, hj, _, _, _, _, hmark⟩ := mp_alookup_some hm hl
    rw [hj, hm.2.1]
    simp at h
    simp [hmark h]

theorem mp_edge {s t : GCState} (hm : MarkPre s t) (a b : Nat) :
    Edge t a b ↔ Edge s a b := by
  constructor
  · rintro ⟨i, h, hl, hmem, h1, h2, h3, h4⟩
    rcases forall2_alookup hm.2.2.2 a with ⟨hs1, hs2⟩ | ⟨i', j, hs1, hs2, hr⟩
    · rw [hl] at hs2; cases hs2
    · rw [hl] at hs2
      cases hs2
      refine ⟨i', h, hs1, ?_, ?_, ?_, h3, ?_⟩
      · rwa [hm.1] at hmem
      · rwa [hr.2.1] at h1
      · rwa [hr.2.1, hr.2.2.1] at h2
      · rwa [mp_isRegistered hm b] at h4
  · rintro ⟨i, h, hl, hmem, h1, h2, h3, h4⟩
    obtain ⟨j, hj, ho, hz, _, _, _⟩ := mp_alookup_some hm hl
    refine ⟨j, h, hj, ?_, ?_, ?_, h3, ?_⟩
    · rwa [hm.1]
    · rwa [ho]
    · rwa [ho, hz]
    · rwa [mp_isRegistered hm b]

theorem mp_rootReach {s t : GCState} (hm : MarkPre s t) (b : Nat) :
    RootReach t b ↔ RootReach s b := by
  unfold RootReach
  rw [hm.1]
  constructor
  · rintro ⟨h, h1, h2, h3, h4⟩
    exact ⟨h, h1, h2, h3, by rwa [mp_isRegistered hm b] at h4⟩
  · rintro ⟨h, h1, h2, h3, h4⟩
    exact ⟨h, h1, h2, h3, by rwa [mp_isRegistered hm b]⟩

theorem mp_reachable {s t : GCState} (hm : MarkPre s t) (b : Nat) :
    Reachable t b ↔ Reachable s b := by
  unfold Reachable
  constructor
  · rintro ⟨r, hr, hpath⟩
    exact ⟨r, (mp_rootReach hm r).mp hr,
      hpath.mono fun x y hxy => (mp_edge hm x y).mp hxy⟩
  · rintro ⟨r, hr, hpath⟩
    exact ⟨r, (mp_rootReach hm r).mpr hr,
      hpath.mono fun x y hxy => (mp_edge hm x y).mpr hxy⟩

theorem count_le_of_forall2 {c : Bool} :
    ∀ {l m : List (Nat × ObjectInfo)}, List.Forall₂ (RecMono c) l m →
      (m.filter (fun q => decide (q.2.mark ≠ c))).length ≤
      (l.filter (fun q => decide (q.2.mark ≠ c))).length := by
  intro l m h
  induction h with
  | nil => exact Nat.le_refl _
  | cons hpq hrest ih =>
    rename_i p q l' m'
    by_cases hq : q.2.mark = c
    · by_cases hp : p.2.mark = c
      · simp only [List.filter, hp, hq, decide_not]
        simpa using ih
      · simp only [List.filter, hp, hq, decide_not]
        simp only [decide_eq_true_eq] at *
        simp [hp, hq]
        exact Nat.le_succ_of_le (by simpa using ih)
    · have hp : ¬ p.2.mark = c := fun h => hq (hpq.2.2.2.2.2 h)
      simp only [List.filter, decide_not]
      simp [hp, hq]
      simpa using ih

theorem mp_count {s t : GCState} (hm : MarkPre s t) :
    unmarkedCount t ≤ unmarkedCount s := by
  unfold unmarkedCount
  rw [hm.2.1]
  exact count_le_of_forall2 hm.2.2.2

theorem count_markRecord_le (s : GCState) (a : Nat) :
    unmarkedCount (markRecord s a) ≤ unmarkedCount s :=
  mp_count (mp_markRecord s a)

theorem count_aupdate_mark_lt {cur : Bool} :
    ∀ (l : List (Nat × ObjectInfo)) (a : Nat) (i : ObjectInfo),
      alookup l a = some i → i.mark ≠ cur →
      ((aupdate l a (fun j => { j with mark := cur })).filter
        (fun q => decide (q.2.mark ≠ cur))).length <
      (l.filter (fun q => decide (q.2.mark ≠ cur))).length := by
  intro l
  induction l with
  | nil =>
    intro a i h
    simp [alookup] at h
  | cons q t ih =>
    intro a i h hstale
    by_cases hq : q.1 = a
    · simp only [alookup, hq, if_pos] at h
      cases h
      have hle : ((aupdate t a (fun j => { j with mark := cur })).filter
          (fun q => decide (q.2.mark ≠ cur))).length ≤
          (t.filter (fun q => decide (q.2.mark ≠ cur))).length := by
        apply count_le_of_forall2 (c := cur)
        apply forall2_map_self
        intro x _
        by_cases hx : x.1 = a
        · exact ⟨by simp [hx], by simp [hx], by simp [hx], by simp [hx], by simp [hx],
            fun _ => by simp [hx]⟩
        · simp only [hx, if_neg, not_false_iff]
          exact recMono_refl _ x
      rw [aupdate_cons]
      simp only [hq, if_pos, List.filter]
      simp [hstale]
      exact Nat.lt_succ_of_le (by simpa using hle)
    · simp only [alookup, hq, if_neg, not_false_iff] at h
      have := ih a i h hstale
      rw [aupdate_cons]
      simp only [hq, if_neg, not_false_iff, List.filter]
      by_cases hqm : q.2.mark = cur
      · simp [hqm]
        simpa using this
      · simp [hqm]
        simpa using this

theorem count_markRecord_lt {s : GCState} {a : Nat} {i : ObjectInfo}
    (hl : alookup s.objects a = some i) (hstale : i.mark ≠ s.currentMark) :
    unmarkedCount (markRecord s a) < unmarkedCount s := by
  unfold unmarkedCount markRecord
  exact count_aupdate_mark_lt s.objects a i hl hstale

/-! ### The marking engine: preservation, depth-bound sufficiency, soundness -/

theorem mpre_loop {fuel l z : Nat}
    (hmo : ∀ s a t, markObjectO fuel s a = some t → MarkPre s t) :
    ∀ (hs : List HandleRec) (s t : GCState),
      markLoopGo (markObjectO fuel) l z s hs = some t → MarkPre s t := by
  intro hs
  induction hs with
  | nil =>
    intro s t h
    simp only [markLoopGo] at h
    cases h
    exact mp_refl _
  | cons h rest ih =>
    intro s t hrun
    simp only [markLoopGo] at hrun
    by_cases hr : l ≤ h.addr ∧ h.addr < l + z
    · rw [if_pos hr] at hrun
      cases hinfo : h.info with
      | none =>
        simp only [hinfo] at hrun
        exact ih s t hrun
      | some b =>
        simp only [hinfo] at hrun
        cases hlb : alookup s.objects b with
        | none =>
          simp only [hlb] at hrun
          exact ih s t hrun
        | some bi =>
          simp only [hlb] at hrun
          by_cases hbm : bi.mark ≠ s.currentMark
          · rw [if_pos hbm] at hrun
            cases hmo2 : markObjectO fuel s b with
            | none => simp [hmo2] at hrun
            | some s' =>
              simp only [hmo2] at hrun
              exact mp_trans (hmo s b s' hmo2) (ih s' t hrun)
          · rw [if_neg hbm] at hrun
            exact ih s t hrun
    · rw [if_neg hr] at hrun
      exact ih s t hrun

theorem mpre_obj : ∀ (fuel : Nat) (s : GCState) (a : Nat) (t : GCState),
    markObjectO fuel s a = some t → MarkPre s t := by
  intro fuel
  induction fuel with
  | zero =>
    intro s a t h
    simp [markObjectO] at h
  | succ f ih =>
    intro s a t h
    simp only [markObjectO] at h
    cases hl : alookup s.objects a with
    | none =>
      simp only [hl] at h
      cases h
      exact mp_refl _
    | some i =>
      simp only [hl] at h
      exact mp_trans (mp_markRecord s a) (mpre_loop ih _ _ _ h)

theorem count_le_len (s : GCState) : unmarkedCount s ≤ s.objects.length := by
  unfold unmarkedCount
  exact List.length_filter_le _ _

theorem count_pos_of_stale {s : GCState} {a : Nat} {i : ObjectInfo}
    (hl : alookup s.objects a = some i) (hstale : i.mark ≠ s.currentMark) :
    0 < unmarkedCount s := by
  unfold unmarkedCount
  have hmem : (a, i) ∈ s.objects.filter (fun q => decide (q.2.mark ≠ s.currentMark)) :=
    List.mem_filter.mpr ⟨alookup_mem hl, by simpa using hstale⟩
  exact List.length_pos_of_mem hmem

theorem fuel_loop : ∀ (fuel l z : Nat),
    (∀ s a i, alookup s.objects a = some i → i.mark ≠ s.currentMark →
      unmarkedCount s ≤ fuel → markObjectO fuel s a = none → False) →
    ∀ (hs : List HandleRec) (s : GCState), unmarkedCount s ≤ fuel →
      markLoopGo (markObjectO fuel) l z s hs = none → False := by
  intro fuel l z hmo hs
  induction hs with
  | nil =>
    intro s hc h
    simp [markLoopGo] at h
  | cons h rest ih =>
    intro s hc hrun
    simp only [markLoopGo] at hrun
    by_cases hr : l ≤ h.addr ∧ h.addr < l + z
    · rw [if_pos hr] at hrun
      cases hinfo : h.info with
      | none =>
        simp only [hinfo] at hrun
        exact ih s hc hrun
      | some b =>
        simp only [hinfo] at hrun
        cases hlb : alookup s.objects b with
        | none =>
          simp only [hlb] at hrun
          exact ih s hc hrun
        | some bi =>
          simp only [hlb] at hrun
          by_cases hbm : bi.mark ≠ s.currentMark
          · rw [if_pos hbm] at hrun
            cases hmo2 : markObjectO fuel s b with
            | none => exact hmo s b bi hlb hbm hc hmo2
            | some s' =>
              simp only [hmo2] at hrun
              exact ih s' (le_trans (mp_count (mpre_obj fuel s b s' hmo2)) hc) hrun
          · rw [if_neg hbm] at hrun
            exact ih s hc hrun
    · rw [if_neg hr] at hrun
      exact ih s hc hrun

theorem fuel_obj : ∀ (fuel : Nat) (s : GCState) (a : Nat) (i : ObjectInfo),
    alookup s.objects a = some i → i.mark ≠ s.currentMark →
    unmarkedCount s ≤ fuel → markObjectO fuel s a = none → False := by
  intro fuel
  induction fuel with
  | zero =>
    intro s a i hl hstale hc _
    have := count_pos_of_stale hl hstale
    omega
  | succ f ih =>
    intro s a i hl hstale hc hrun
    simp only [markObjectO, hl] at hrun
    have hdec : unmarkedCount (markRecord s a) ≤ f :=
      Nat.le_of_lt_succ (Nat.lt_of_lt_of_le (count_markRecord_lt hl hstale) hc)
    exact fuel_loop f _ _ ih _ _ hdec hrun

theorem fuel_obj_top : ∀ (fuel : Nat) (s : GCState) (a : Nat),
    unmarkedCount s < fuel → markObjectO fuel s a = none → False := by
  intro fuel
  cases fuel with
  | zero =>
    intro s a hc _
    exact absurd hc (Nat.not_lt_zero _)
  | succ f =>
    intro s a hc hrun
    simp only [markObjectO] at hrun
    cases hl : alookup s.objects a with
    | none => simp [hl] at hrun
    | some i =>
      simp only [hl] at hrun
      have hdec : unmarkedCount (markRecord s a) ≤ f :=
        Nat.le_of_lt_succ (Nat.lt_of_le_of_lt (count_markRecord_le s a) hc)
      exact fuel_loop f _ _ (fuel_obj f) _ _ hdec hrun

theorem snd_loop {fuel l z : Nat}
    (hmo : ∀ s a t, markObjectO fuel s a = some t → ∀ x, isMarked t x = true →
      isMarked s x = true ∨
      ((alookup s.objects a).isSome = true ∧ Relation.ReflTransGen (Edge s) a x)) :
    ∀ (hs : List HandleRec) (s t : GCState),
      markLoopGo (markObjectO fuel) l z s hs = some t → ∀ x, isMarked t x = true →
      isMarked s x = true ∨
      ∃ h, h ∈ hs ∧ (l ≤ h.addr ∧ h.addr < l + z) ∧
        ∃ b, h.info = some b ∧ isRegistered s b = true ∧
          Relation.ReflTransGen (Edge s) b x := by
  intro hs
  induction hs with
  | nil =>
    intro s t h x hx
    simp only [markLoopGo] at h
    cases h
    exact Or.inl hx
  | cons h rest ih =>
    intro s t hrun x hx
    simp only [markLoopGo] at hrun
    by_cases hr : l ≤ h.addr ∧ h.addr < l + z
    · rw [if_pos hr] at hrun
      cases hinfo : h.info with
      | none =>
        simp only [hinfo] at hrun
        rcases ih s t hrun x hx with h1 | ⟨h', hm, hr', hb⟩
        · exact Or.inl h1
        · exact Or.inr ⟨h', List.mem_cons_of_mem _ hm, hr', hb⟩
      | some b =>
        simp only [hinfo] at hrun
        cases hlb : alookup s.objects b with
        | none =>
          simp only [hlb] at hrun
          rcases ih s t hrun x hx with h1 | ⟨h', hm, hr', hb⟩
          · exact Or.inl h1
          · exact Or.inr ⟨h', List.mem_cons_of_mem _ hm, hr', hb⟩
        | some bi =>
          simp only [hlb] at hrun
          by_cases hbm : bi.mark ≠ s.currentMark
          · rw [if_pos hbm] at hrun
            cases hmo2 : markObjectO fuel s b with
            | none => simp [hmo2] at hrun
            | some s' =>
              simp only [hmo2] at hrun
              have hpre : MarkPre s s' := mpre_obj fuel s b s' hmo2
              rcases ih s' t hrun x hx with h1 | ⟨h', hm, hr', b', hib, hreg, hpath⟩
              · rcases hmo s b s' hmo2 x h1 with h2 | ⟨hreg, hpath⟩
                · exact Or.inl h2
                · exact Or.inr ⟨h, List.mem_cons_self _ _, hr,
                    b, hinfo, by simpa [isRegistered] using hreg, hpath⟩
              · refine Or.inr ⟨h', List.mem_cons_of_mem _ hm, hr', b', hib, ?_, ?_⟩
                · rwa [mp_isRegistered hpre b'] at hreg
                · exact hpath.mono fun u v huv => (mp_edge hpre u v).mp huv
          · rw [if_neg hbm] at hrun
            rcases ih s t hrun x hx with h1 | ⟨h', hm, hr', hb⟩
            · exact Or.inl h1
            · exact Or.inr ⟨h', List.mem_cons_of_mem _ hm, hr', hb⟩
    · rw [if_neg hr] at hrun
      rcases ih s t hrun x hx with h1 | ⟨h', hm, hr', hb⟩
      · exact Or.inl h1
      · exact Or.inr ⟨h', List.mem_cons_of_mem _ hm, hr', hb⟩

theorem isMarked_markRecord_ne {s : GCState} {a x : Nat} (hne : x ≠ a) :
    isMarked (markRecord s a) x = isMarked s x := by
  unfold isMarked markRecord
  rw [alookup_aupdate]
  simp [hne]

theorem isMarked_markRecord_self {s : GCState} {a : Nat}
    (hreg : (alookup s.objects a).isSome = true) :
    isMarked (markRecord s a) a = true := by
  unfold isMarked markRecord
  cases hl : alookup s.objects a with
  | none => rw [hl] at hreg; simp at hreg
  | some i => simp [alookup_aupdate, hl]

theorem snd_obj : ∀ (fuel : Nat) (s : GCState) (a : Nat) (t : GCState),
    markObjectO fuel s a = some t → ∀ x, isMarked t x = true →
    isMarked s x = true ∨
    ((alookup s.objects a).isSome = true ∧ Relation.ReflTransGen (Edge s) a x) := by
  intro fuel
  induction fuel with
  | zero =>
    intro s a t h
    simp [markObjectO] at h
  | succ f ih =>
    intro s a t h x hx
    simp only [markObjectO] at h
    cases hl : alookup s.objects a with
    | none =>
      simp only [hl] at h
      cases h
      exact Or.inl hx
    | some i =>
      simp only [hl] at h
      have hpre1 : MarkPre s (markRecord s a) := mp_markRecord s a
      rcases snd_loop ih _ _ _ h x hx with h1 | ⟨h', hm, hr', b, hib, hreg, hpath⟩
      · by_cases hxa : x = a
        · subst hxa
          exact Or.inr ⟨by simp [hl], Relation.ReflTransGen.refl⟩
        · rw [isMarked_markRecord_ne hxa] at h1
          exact Or.inl h1
      · right
        refine ⟨by simp [hl], ?_⟩
        have hedge : Edge s a b := by
          refine ⟨i, h', hl, ?_, ?_, ?_, hib, ?_⟩
          · have : (markRecord s a).pointers = s.pointers := rfl
            rwa [this] at hm
          · exact hr'.1
          · exact hr'.2
          · rwa [mp_isRegistered hpre1 b] at hreg
        have hpath' : Relation.ReflTransGen (Edge s) b x :=
          hpath.mono fun u v huv => (mp_edge hpre1 u v).mp huv
        exact Relation.ReflTransGen.head hedge hpath'

/-! ### The marking engine: coverage and closure -/

theorem cov_loop {fuel l z : Nat}
    (hmo : ∀ s a t, markObjectO fuel s a = some t →
      (((alookup s.objects a).isSome = true → isMarked t a = true) ∧
       (∀ x, isMarked t x = true → isMarked s x = false →
         ∀ y, Edge s x y → isMarked t y = true))) :
    ∀ (hs : List HandleRec) (s t : GCState),
      markLoopGo (markObjectO fuel) l z s hs = some t →
      (∀ h' ∈ hs, (l ≤ h'.addr ∧ h'.addr < l + z) → ∀ b, h'.info = some b →
        (alookup s.objects b).isSome = true → isMarked t b = true) ∧
      (∀ x, isMarked t x = true → isMarked s x = false →
        ∀ y, Edge s x y → isMarked t y = true) := by
  intro hs
  induction hs with
  | nil =>
    intro s t h
    simp only [markLoopGo] at h
    cases h
    constructor
    · intro h' hm
      simp at hm
    · intro x hx hxs
      rw [hx] at hxs
      cases hxs
  | cons h rest ih =>
    intro s t hrun
    simp only [markLoopGo] at hrun
    by_cases hr : l ≤ h.addr ∧ h.addr < l + z
    · rw [if_pos hr] at hrun
      cases hinfo : h.info with
      | none =>
        simp only [hinfo] at hrun
        obtain ⟨ihcov, ihcl⟩ := ih s t hrun
        refine ⟨?_, ihcl⟩
        intro h' hm hr' b hib hreg
        rcases List.mem_cons.mp hm with h1 | h1
        · rw [h1, hinfo] at hib
          cases hib
        · exact ihcov h' h1 hr' b hib hreg
      | some b =>
        simp only [hinfo] at hrun
        cases hlb : alookup s.objects b with
        | none =>
          simp only [hlb] at hrun
          obtain ⟨ihcov, ihcl⟩ := ih s t hrun
          refine ⟨?_, ihcl⟩
          intro h' hm hr' b' hib hreg
          rcases List.mem_cons.mp hm with h1 | h1
          · rw [h1, hinfo] at hib
            cases hib
            rw [hlb] at hreg
            cases hreg
          · exact ihcov h' h1 hr' b' hib hreg
        | some bi =>
          simp only [hlb] at hrun
          by_cases hbm : bi.mark ≠ s.currentMark
          · rw [if_pos hbm] at hrun
            cases hmo2 : markObjectO fuel s b with
            | none => simp [hmo2] at hrun
            | some s' =>
              simp only [hmo2] at hrun
              have hpre : MarkPre s s' := mpre_obj fuel s b s' hmo2
              have hpre2 : MarkPre s' t := mpre_loop (mpre_obj fuel) rest s' t hrun
              obtain ⟨ihcov, ihcl⟩ := ih s' t hrun
              constructor
              · intro h' hm hr' b' hib hreg
                rcases List.mem_cons.mp hm with h1 | h1
                · rw [h1, hinfo] at hib
                  cases hib
                  exact mp_isMarked hpre2 ((hmo s b s' hmo2).1 (by simp [hlb]))
                · refine ihcov h' h1 hr' b' hib ?_
                  have := mp_isRegistered hpre b'
                  unfold isRegistered at this
                  rw [this]
                  exact hreg
              · intro x hx hxs y hedge
                by_cases hxs' : isMarked s' x = true
                · exact mp_isMarked hpre2 ((hmo s b s' hmo2).2 x hxs' hxs y hedge)
                · have hxs'' : isMarked s' x = false := by
                    rwa [Bool.not_eq_true] at hxs'
                  exact ihcl x hx hxs'' y ((mp_edge hpre x y).mpr hedge)
          · rw [if_neg hbm] at hrun
            obtain ⟨ihcov, ihcl⟩ := ih s t hrun
            refine ⟨?_, ihcl⟩
            intro h' hm hr' b' hib hreg
            rcases List.mem_cons.mp hm with h1 | h1
            · rw [h1, hinfo] at hib
              cases hib
              have hmarked : isMarked s b = true := by
                unfold isMarked
                rw [hlb]
                push_neg at hbm
                simp [hbm]
              exact mp_isMarked (mpre_loop (mpre_obj fuel) rest s t hrun) hmarked
            · exact ihcov h' h1 hr' b' hib hreg
    · rw [if_neg hr] at hrun
      obtain ⟨ihcov, ihcl⟩ := ih s t hrun
      refine ⟨?_, ihcl⟩
      intro h' hm hr' b hib hreg
      rcases List.mem_cons.mp hm with h1 | h1
      · rw [h1] at hr'
        exact absurd hr' hr
      · exact ihcov h' h1 hr' b hib hreg

theorem cov_obj : ∀ (fuel : Nat) (s : GCState) (a : Nat) (t : GCState),
    markObjectO fuel s a = some t →
    (((alookup s.objects a).isSome = true → isMarked t a = true) ∧
     (∀ x, isMarked t x = true → isMarked s x = false →
       ∀ y, Edge s x y → isMarked t y = true)) := by
  intro fuel
  induction fuel with
  | zero =>
    intro s a t h
    simp [markObjectO] at h
  | succ f ih =>
    intro s a t h
    simp only [markObjectO] at h
    cases hl : alookup s.objects a with
    | none =>
      simp only [hl] at h
      cases h
      constructor
      · intro hreg
        simp at hreg
      · intro x hx hxs
        rw [hx] at hxs
        cases hxs
    | some i =>
      simp only [hl] at h
      have hpre1 : MarkPre s (markRecord s a) := mp_markRecord s a
      have hpre2 : MarkPre (markRecord s a) t := mpre_loop (mpre_obj f) _ _ _ h
      obtain ⟨hcov, hcl⟩ := cov_loop ih _ _ _ h
      constructor
      · intro _
        exact mp_isMarked hpre2 (isMarked_markRecord_self (by simp [hl]))
      · intro x hx hxs y hedge
        by_cases hxa : x = a
        · subst hxa
          obtain ⟨i', h', hl', hm, h1, h2, hib, hregy⟩ := hedge
          rw [hl] at hl'
          cases hl'
          refine hcov h' ?_ ⟨h1, h2⟩ y hib ?_
          · exact hm
          · have := mp_isRegistered hpre1 y
            unfold isRegistered at this
            rw [this]
            exact hregy
        · have hxs1 : isMarked (markRecord s a) x = false := by
            rw [isMarked_markRecord_ne hxa]
            exact hxs
          exact hcl x hx hxs1 y ((mp_edge hpre1 x y).mpr hedge)

/-! ### The root scan -/

theorem roots_pre : ∀ (hs : List HandleRec) (s t : GCState),
    markRoots s hs = some t → MarkPre s t := by
  intro hs
  induction hs with
  | nil =>
    intro s t h
    simp only [markRoots] at h
    cases h
    exact mp_refl _
  | cons h rest ih =>
    intro s t hrun
    simp only [markRoots] at hrun
    by_cases hroot : h.isRoot = true
    · rw [if_pos hroot] at hrun
      cases hinfo : h.info with
      | none =>
        simp only [hinfo] at hrun
        exact ih s t hrun
      | some a =>
        simp only [hinfo] at hrun
        cases hmo2 : markObjectO (s.objects.length + 1) s a with
        | none => simp [hmo2] at hrun
        | some s' =>
          simp only [hmo2] at hrun
          exact mp_trans (mpre_obj _ s a s' hmo2) (ih s' t hrun)
    · rw [if_neg hroot] at hrun
      exact ih s t hrun

theorem roots_not_none : ∀ (hs : List HandleRec) (s : GCState),
    markRoots s hs = none → False := by
  intro hs
  induction hs with
  | nil =>
    intro s h
    simp [markRoots] at h
  | cons h rest ih =>
    intro s hrun
    simp only [markRoots] at hrun
    by_cases hroot : h.isRoot = true
    · rw [if_pos hroot] at hrun
      cases hinfo : h.info with
      | none =>
        simp only [hinfo] at hrun
        exact ih s hrun
      | some a =>
        simp only [hinfo] at hrun
        cases hmo2 : markObjectO (s.objects.length + 1) s a with
        | none =>
          exact fuel_obj_top _ s a (Nat.lt_succ_of_le (count_le_len s)) hmo2
        | some s' =>
          simp only [hmo2] at hrun
          exact ih s' hrun
    · rw [if_neg hroot] at hrun
      exact ih s hrun

theorem roots_sound : ∀ (hs : List HandleRec) (s t : GCState),
    markRoots s hs = some t → ∀ x, isMarked t x = true →
    isMarked s x = true ∨ ∃ h, h ∈ hs ∧ h.isRoot = true ∧ ∃ b, h.info = some b ∧
      isRegistered s b = true ∧ Relation.ReflTransGen (Edge s) b x := by
  intro hs
  induction hs with
  | nil =>
    intro s t h x hx
    simp only [markRoots] at h
    cases h
    exact Or.inl hx
  | cons h rest ih =>
    intro s t hrun x hx
    simp only [markRoots] at hrun
    by_cases hroot : h.isRoot = true
    · rw [if_pos hroot] at hrun
      cases hinfo : h.info with
      | none =>
        simp only [hinfo] at hrun
        rcases ih s t hrun x hx with h1 | ⟨h', hm, hro, hb⟩
        · exact Or.inl h1
        · exact Or.inr ⟨h', List.mem_cons_of_mem _ hm, hro, hb⟩
      | some a =>
        simp only [hinfo] at hrun
        cases hmo2 : markObjectO (s.objects.length + 1) s a with
        | none => simp [hmo2] at hrun
        | some s' =>
          simp only [hmo2] at hrun
          have hpre : MarkPre s s' := mpre_obj _ s a s' hmo2
          rcases ih s' t hrun x hx with h1 | ⟨h', hm, hro, b, hib, hreg, hpath⟩
          · rcases snd_obj _ s a s' hmo2 x h1 with h2 | ⟨hreg, hpath⟩
            · exact Or.inl h2
            · exact Or.inr ⟨h, List.mem_cons_self _ _, hroot, a, hinfo,
                by simpa [isRegistered] using hreg, hpath⟩
          · refine Or.inr ⟨h', List.mem_cons_of_mem _ hm, hro, b, hib, ?_, ?_⟩
            · rwa [mp_isRegistered hpre b] at hreg
            · exact hpath.mono fun u v huv => (mp_edge hpre u v).mp huv
    · rw [if_neg hroot] at hrun
      rcases ih s t hrun x hx with h1 | ⟨h', hm, hro, hb⟩
      · exact Or.inl h1
      · exact Or.inr ⟨h', List.mem_cons_of_mem _ hm, hro, hb⟩

theorem roots_covered : ∀ (hs : List HandleRec) (s t : GCState),
    markRoots s hs = some t → ∀ h' ∈ hs, h'.isRoot = true → ∀ b, h'.info = some b →
      (alookup s.objects b).isSome = true → isMarked t b = true := by
  intro hs
  induction hs with
  | nil =>
    intro s t h h' hm
    simp at hm
  | cons h rest ih =>
    intro s t hrun h' hm hro b hib hreg
    simp only [markRoots] at hrun
    by_cases hroot : h.isRoot = true
    · rw [if_pos hroot] at hrun
      cases hinfo : h.info with
      | none =>
        simp only [hinfo] at hrun
        rcases List.mem_cons.mp hm with h1 | h1
        · rw [h1, hinfo] at hib
          cases hib
        · exact ih s t hrun h' h1 hro b hib hreg
      | some a =>
        simp only [hinfo] at hrun
        cases hmo2 : markObjectO (s.objects.length + 1) s a with
        | none => simp [hmo2] at hrun
        | some s' =>
          simp only [hmo2] at hrun
          have hpre : MarkPre s s' := mpre_obj _ s a s' hmo2
          have hpre2 : MarkPre s' t := roots_pre rest s' t hrun
          rcases List.mem_cons.mp hm with h1 | h1
          · rw [h1, hinfo] at hib
            cases hib
            exact mp_isMarked hpre2 ((cov_obj _ s b s' hmo2).1 hreg)
          · refine ih s' t hrun h' h1 hro b hib ?_
            have := mp_isRegistered hpre b
            unfold isRegistered at this
            rw [this]
            exact hreg
    · rw [if_neg hroot] at hrun
      rcases List.mem_cons.mp hm with h1 | h1
      · rw [h1] at hro
        exact absurd hro hroot
      · exact ih s t hrun h' h1 hro b hib hreg

theorem roots_closed : ∀ (hs : List HandleRec) (s t : GCState),
    markRoots s hs = some t → ∀ x, isMarked t x = true → isMarked s x = false →
      ∀ y, Edge s x y → isMarked t y = true := by
  intro hs
  induction hs with
  | nil =>
    intro s t h x hx hxs
    simp only [markRoots] at h
    cases h
    rw [hx] at hxs
    cases hxs
  | cons h rest ih =>
    intro s t hrun x hx hxs y hedge
    simp only [markRoots] at hrun
    by_cases hroot : h.isRoot = true
    · rw [if_pos hroot] at hrun
      cases hinfo : h.info with
      | none =>
        simp only [hinfo] at hrun
        exact ih s t hrun x hx hxs y hedge
      | some a =>
        simp only [hinfo] at hrun
        cases hmo2 : markObjectO (s.objects.length + 1) s a with
        | none => simp [hmo2] at hrun
        | some s' =>
          simp only [hmo2] at hrun
          have hpre : MarkPre s s' := mpre_obj _ s a s' hmo2
          have hpre2 : MarkPre s' t := roots_pre rest s' t hrun
          by_cases hxs' : isMarked s' x = true
          · exact mp_isMarked hpre2 ((cov_obj _ s a s' hmo2).2 x hxs' hxs y hedge)
          · have hxs'' : isMarked s' x = false := by
              rwa [Bool.not_eq_true] at hxs'
            exact ih s' t hrun x hx hxs'' y ((mp_edge hpre x y).mpr hedge)
    · rw [if_neg hroot] at hrun
      exact ih s t hrun x hx hxs y hedge

/-! ### The mark phase computes reachability -/

theorem isMarked_flip {s : GCState} (hmu : marksUniform s) (x : Nat) :
    isMarked (flipMark s) x = false := by
  cases hl : alookup s.objects x with
  | none => simp [isMarked, flipMark, hl]
  | some i =>
    have hmark : i.mark = s.currentMark := hmu (x, i) (alookup_mem hl)
    have hne : (s.currentMark == !s.currentMark) = false := by
      cases s.currentMark <;> rfl
    simp [isMarked, flipMark, hl, hmark, hne]

theorem reachable_flip (s : GCState) (x : Nat) :
    Reachable (flipMark s) x ↔ Reachable s x := Iff.rfl

theorem marked_iff_reachable {s s1 : GCState} (hmu : marksUniform s)
    (h : markRoots (flipMark s) (flipMark s).pointers = some s1) (x : Nat) :
    isMarked s1 x = true ↔ Reachable s x := by
  constructor
  · intro hx
    rcases roots_sound _ _ _ h x hx with h1 | ⟨hh, hm, hro, b, hib, hreg, hpath⟩
    · rw [isMarked_flip hmu x] at h1
      cases h1
    · exact (reachable_flip s x).mp ⟨b, ⟨hh, hm, hro, hib, hreg⟩, hpath⟩
  · intro hx
    obtain ⟨r, hroot, hpath⟩ := hx
    obtain ⟨hh, hm, hro, hib, hreg⟩ := hroot
    have hr : isMarked s1 r = true := by
      refine roots_covered _ _ _ h hh ?_ hro r hib ?_
      · exact hm
      · exact hreg
    clear hib hm
    induction hpath with
    | refl => exact hr
    | tail hp hedge ih =>
      exact roots_closed _ _ _ h _ ih (isMarked_flip hmu _) _ hedge

/-! ### Sweep bookkeeping preserves record shapes -/

theorem recShape_parts {i j : ObjectInfo} (h : recShape i = recShape j) :
    i.object = j.object ∧ i.size = j.size ∧ i.mark = j.mark ∧
    i.destroyBound = j.destroyBound := by
  unfold recShape at h
  simp only [Prod.mk.injEq] at h
  exact ⟨h.1, h.2.1, h.2.2.1, h.2.2.2⟩

theorem setInvalid_objects (s : GCState) (p : Nat) :
    (setInvalid s p).objects = s.objects := rfl

theorem setInvalid_cur (s : GCState) (p : Nat) :
    (setInvalid s p).currentMark = s.currentMark := rfl

theorem invalidateList_objects : ∀ (ps : List Nat) (s : GCState),
    (invalidateList s ps).objects = s.objects := by
  intro ps
  induction ps with
  | nil => intro s; rfl
  | cons p rest ih =>
    intro s
    simp only [invalidateList]
    exact ih (setInvalid s p)

theorem invalidateList_cur : ∀ (ps : List Nat) (s : GCState),
    (invalidateList s ps).currentMark = s.currentMark := by
  intro ps
  induction ps with
  | nil => intro s; rfl
  | cons p rest ih =>
    intro s
    simp only [invalidateList]
    exact ih (setInvalid s p)

theorem invalidateList_bytes : ∀ (ps : List Nat) (s : GCState),
    (invalidateList s ps).allocatedBytes = s.allocatedBytes := by
  intro ps
  induction ps with
  | nil => intro s; rfl
  | cons p rest ih =>
    intro s
    simp only [invalidateList]
    exact ih (setInvalid s p)

theorem ptrDtor_lookup (s : GCState) (p x : Nat) :
    (alookup (ptrDtor s p).objects x).map recShape =
      (alookup s.objects x).map recShape := by
  unfold ptrDtor
  cases hf : findH s.pointers p with
  | none => rfl
  | some h =>
    cases hi : h.info with
    | none => simp [hi]
    | some c =>
      simp only [hi]
      rw [show ∀ (l : List (Nat × ObjectInfo)) (ps : List HandleRec) (b : Nat) (m : Bool),
        (GCState.mk l ps b m).objects = l from fun _ _ _ _ => rfl]
      rw [alookup_aupdate]
      by_cases hx : x = c
      · subst hx
        cases alookup s.objects x <;> simp [recShape]
      · simp [hx]

theorem ptrDtor_cur (s : GCState) (p : Nat) :
    (ptrDtor s p).currentMark = s.currentMark := by
  unfold ptrDtor
  cases hf : findH s.pointers p with
  | none => rfl
  | some h => cases hi : h.info with
    | none => simp [hi]
    | some c => simp [hi]

theorem destructList_lookup : ∀ (ps : List Nat) (s : GCState) (x : Nat),
    (alookup (destructEmbedded.destructList s ps).objects x).map recShape =
      (alookup s.objects x).map recShape := by
  intro ps
  induction ps with
  | nil => intro s x; rfl
  | cons p rest ih =>
    intro s x
    simp only [destructEmbedded.destructList]
    rw [ih (ptrDtor s p) x, ptrDtor_lookup]

theorem destructList_cur : ∀ (ps : List Nat) (s : GCState),
    (destructEmbedded.destructList s ps).currentMark = s.currentMark := by
  intro ps
  induction ps with
  | nil => intro s; rfl
  | cons p rest ih =>
    intro s
    simp only [destructEmbedded.destructList]
    rw [ih (ptrDtor s p), ptrDtor_cur]

theorem destructEmbedded_lookup (s : GCState) (l z x : Nat) :
    (alookup (destructEmbedded s l z).objects x).map recShape =
      (alookup s.objects x).map recShape := by
  unfold destructEmbedded
  exact destructList_lookup _ s x

theorem destructEmbedded_cur (s : GCState) (l z : Nat) :
    (destructEmbedded s l z).currentMark = s.currentMark := by
  unfold destructEmbedded
  exact destructList_cur _ s

theorem keys_eraseKey (l : List (Nat × ObjectInfo)) (a : Nat) :
    (eraseKey l a).map (fun q => q.1) =
      (l.map (fun q => q.1)).filter (fun x => decide (x ≠ a)) := by
  induction l with
  | nil => rfl
  | cons q t ih =>
    by_cases hqa : q.1 = a
    · simp [eraseKey, hqa, ih]
    · simp [eraseKey, hqa, ih, List.filter]

theorem keys_ptrDtor (s : GCState) (p : Nat) :
    keysOf (ptrDtor s p) = keysOf s := by
  unfold keysOf ptrDtor
  cases hf : findH s.pointers p with
  | none => rfl
  | some h => cases hi : h.info with
    | none => simp [hi]
    | some c =>
      simp only [hi]
      exact keys_aupdate _ _ _

theorem keys_destructList : ∀ (ps : List Nat) (s : GCState),
    keysOf (destructEmbedded.destructList s ps) = keysOf s := by
  intro ps
  induction ps with
  | nil => intro s; rfl
  | cons p rest ih =>
    intro s
    simp only [destructEmbedded.destructList]
    rw [ih (ptrDtor s p), keys_ptrDtor]

theorem keys_sweepOne (s : GCState) (a : Nat) :
    keysOf (sweepOne s a) = (keysOf s).filter (fun x => decide (x ≠ a)) := by
  unfold sweepOne
  cases hla : alookup s.objects a with
  | none =>
    have hnm : a ∉ keysOf s := (alookup_none_iff _ _).mp hla
    symm
    refine List.filter_eq_self.mpr ?_
    intro x hx
    have : x ≠ a := fun h => hnm (h ▸ hx)
    simpa using this
  | some i =>
    simp only
    have h1 : keysOf (destructEmbedded
        { s with allocatedBytes := s.allocatedBytes - i.size } i.object i.size) =
        keysOf s := by
      unfold destructEmbedded
      exact keys_destructList _ _
    cases hl2 : alookup (destructEmbedded
        { s with allocatedBytes := s.allocatedBytes - i.size } i.object i.size).objects a with
    | none =>
      simp only [hl2]
      show ((eraseKey _ a).map fun q => q.1) = _
      rw [keys_eraseKey]
      unfold keysOf at h1
      rw [h1]
      rfl
    | some i2 =>
      simp only [hl2]
      show ((eraseKey _ a).map fun q => q.1) = _
      rw [keys_eraseKey, invalidateList_objects]
      unfold keysOf at h1
      rw [h1]
      rfl

theorem keys_sweepOne_sublist (s : GCState) (a : Nat) :
    (keysOf (sweepOne s a)).Sublist (keysOf s) := by
  rw [keys_sweepOne]
  exact List.filter_sublist _

theorem sweepOne_lookup (s : GCState) (a x : Nat) :
    (alookup (sweepOne s a).objects x).map recShape =
      if x = a then none else (alookup s.objects x).map recShape := by
  unfold sweepOne
  cases hla : alookup s.objects a with
  | none =>
    by_cases hx : x = a
    · subst hx
      simp [hla]
    · simp [hx]
  | some i =>
    simp only
    cases hl2 : alookup (destructEmbedded
        { s with allocatedBytes := s.allocatedBytes - i.size } i.object i.size).objects a with
    | none =>
      simp only [hl2]
      rw [alookup_eraseKey]
      by_cases hx : x = a
      · simp [hx]
      · simp only [hx, if_neg, not_false_iff]
        rw [destructEmbedded_lookup]
    | some i2 =>
      simp only [hl2]
      rw [alookup_eraseKey]
      by_cases hx : x = a
      · simp [hx]
      · simp only [hx, if_neg, not_false_iff]
        rw [invalidateList_objects, destructEmbedded_lookup]

theorem sweepOne_cur (s : GCState) (a : Nat) :
    (sweepOne s a).currentMark = s.currentMark := by
  unfold sweepOne
  cases hla : alookup s.objects a with
  | none => rfl
  | some i =>
    simp only
    cases hl2 : alookup (destructEmbedded
        { s with allocatedBytes := s.allocatedBytes - i.size } i.object i.size).objects a with
    | none =>
      simp only [hl2]
      rw [show (destructEmbedded { s with allocatedBytes := s.allocatedBytes - i.size }
        i.object i.size).currentMark = s.currentMark from destructEmbedded_cur _ _ _]
    | some i2 =>
      simp only [hl2]
      rw [invalidateList_cur]
      exact destructEmbedded_cur _ _ _

/-! ### The sweep loop -/

theorem sweepLoop_ok : ∀ (free : List Nat) (s : GCState) (fin : List Nat),
    free.Nodup →
    (∀ a ∈ free, ∃ i, alookup s.objects a = some i ∧ i.destroyBound = true) →
    ∃ s', sweepLoop s free fin = .ok s' (fin ++ free) ∧
      s'.currentMark = s.currentMark ∧
      (keysOf s').Sublist (keysOf s) ∧
      (∀ x, (alookup s'.objects x).map recShape =
        if x ∈ free then none else (alookup s.objects x).map recShape) := by
  intro free
  induction free with
  | nil =>
    intro s fin _ _
    exact ⟨s, by simp [sweepLoop], rfl, List.Sublist.refl _, by simp⟩
  | cons a rest ih =>
    intro s fin hnd hpres
    obtain ⟨i, hla, hbd⟩ := hpres a (List.mem_cons_self _ _)
    have hnotin : a ∉ rest := (List.nodup_cons.mp hnd).1
    have hpres' : ∀ b ∈ rest, ∃ j, alookup (sweepOne s a).objects b = some j ∧
        j.destroyBound = true := by
      intro b hb
      obtain ⟨j, hlb, hbdb⟩ := hpres b (List.mem_cons_of_mem _ hb)
      have hba : ¬ b = a := fun h => hnotin (h ▸ hb)
      have := sweepOne_lookup s a b
      rw [if_neg hba, hlb] at this
      cases hlb2 : alookup (sweepOne s a).objects b with
      | none => rw [hlb2] at this; simp at this
      | some j2 =>
        rw [hlb2] at this
        simp only [Option.map_some'] at this
        have hsh := Option.some.inj this
        refine ⟨j2, rfl, ?_⟩
        rw [(recShape_parts hsh).2.2.2]
        exact hbdb
    obtain ⟨s', hrun, hcur, hsub, hchar⟩ :=
      ih (sweepOne s a) (fin ++ [a]) (List.nodup_cons.mp hnd).2 hpres'
    refine ⟨s', ?_, ?_, ?_, ?_⟩
    · simp only [sweepLoop, hla, hbd, if_pos]
      rw [hrun]
      simp
    · rw [hcur, sweepOne_cur]
    · exact hsub.trans (keys_sweepOne_sublist s a)
    · intro x
      rw [hchar x]
      by_cases hxa : x = a
      · subst hxa
        have := sweepOne_lookup s x x
        rw [if_pos rfl] at this
        by_cases hxr : x ∈ rest
        · exact absurd hxr hnotin
        · simp [hxr, this]
      · by_cases hxr : x ∈ rest
        · simp [hxr, List.mem_cons]
        · have : ¬ x ∈ a :: rest := by
            simp [List.mem_cons, hxa, hxr]
          simp only [hxr, if_neg, not_false_iff, this]
          have h2 := sweepOne_lookup s a x
          rw [if_neg hxa] at h2
          rw [h2]

theorem sweepLoop_fatal_iff : ∀ (free : List Nat) (s : GCState) (fin : List Nat),
    free.Nodup →
    (∀ a ∈ free, (alookup s.objects a).isSome = true) →
    ((∃ st f2 ad, sweepLoop s free fin = .fatal st f2 ad) ↔
      ∃ a ∈ free, ∃ i, alookup s.objects a = some i ∧ i.destroyBound = false) := by
  intro free
  induction free with
  | nil =>
    intro s fin _ _
    simp [sweepLoop]
  | cons a rest ih =>
    intro s fin hnd hpres
    have hsa := hpres a (List.mem_cons_self _ _)
    cases hla : alookup s.objects a with
    | none => rw [hla] at hsa; simp at hsa
    | some i =>
      have hnotin : a ∉ rest := (List.nodup_cons.mp hnd).1
      by_cases hbd : i.destroyBound = true
      · have hpres' : ∀ b ∈ rest, (alookup (sweepOne s a).objects b).isSome = true := by
          intro b hb
          have hba : ¬ b = a := fun h => hnotin (h ▸ hb)
          have := sweepOne_lookup s a b
          rw [if_neg hba] at this
          have hsb := hpres b (List.mem_cons_of_mem _ hb)
          cases hlb2 : alookup (sweepOne s a).objects b with
          | none =>
            rw [hlb2] at this
            cases hlb3 : alookup s.objects b with
            | none => rw [hlb3] at hsb; simp at hsb
            | some j => rw [hlb3] at this; simp at this
          | some j2 => rfl
        have hstep : sweepLoop s (a :: rest) fin =
            sweepLoop (sweepOne s a) rest (fin ++ [a]) := by
          simp only [sweepLoop, hla, hbd, if_pos]
        rw [hstep]
        rw [ih (sweepOne s a) (fin ++ [a]) (List.nodup_cons.mp hnd).2 hpres']
        constructor
        · rintro ⟨b, hb, j, hlb, hbdb⟩
          have hba : ¬ b = a := fun h => hnotin (h ▸ hb)
          have := sweepOne_lookup s a b
          rw [if_neg hba, hlb] at this
          cases hlb3 : alookup s.objects b with
          | none => rw [hlb3] at this; simp at this
          | some j3 =>
            rw [hlb3] at this
            simp only [Option.map_some'] at this
            have hsh := Option.some.inj this
            refine ⟨b, List.mem_cons_of_mem _ hb, j3, hlb3, ?_⟩
            rw [← (recShape_parts hsh).2.2.2]
            exact hbdb
        · rintro ⟨b, hb, j, hlb, hbdb⟩
          rcases List.mem_cons.mp hb with h1 | h1
          · subst h1
            rw [hla] at hlb
            cases hlb
            rw [hbdb] at hbd
            cases hbd
          · have hba : ¬ b = a := fun h => hnotin (h ▸ h1)
            have := sweepOne_lookup s a b
            rw [if_neg hba, hlb] at this
            cases hlb2 : alookup (sweepOne s a).objects b with
            | none => rw [hlb2] at this; simp at this
            | some j2 =>
              rw [hlb2] at this
              simp only [Option.map_some'] at this
              have hsh := Option.some.inj this
              refine ⟨b, h1, j2, hlb2, ?_⟩
              rw [(recShape_parts hsh).2.2.2]
              exact hbdb
      · have hbd' : i.destroyBound = false := by
          cases h : i.destroyBound
          · rfl
          · rw [h] at hbd; cases hbd rfl
        constructor
        · intro _
          exact ⟨a, List.mem_cons_self _ _, i, hla, hbd'⟩
        · intro _
          refine ⟨{ s with allocatedBytes := s.allocatedBytes - i.size }, fin, a, ?_⟩
          simp only [sweepLoop, hla]
          rw [if_neg hbd]

/-! ### Assembling one full collection -/

theorem forall2_allBound {c : Bool} :
    ∀ {l m : List (Nat × ObjectInfo)}, List.Forall₂ (RecMono c) l m →
      (∀ q ∈ l, q.2.destroyBound = true) → ∀ q ∈ m, q.2.destroyBound = true := by
  intro l m h
  induction h with
  | nil =>
    intro _ q hq
    simp at hq
  | cons hpq hrest ih =>
    intro hall q hq
    rcases List.mem_cons.mp hq with h1 | h1
    · subst h1
      rw [hpq.2.2.2.1]
      exact hall _ (List.mem_cons_self _ _)
    · exact ih (fun r hr => hall r (List.mem_cons_of_mem _ hr)) q h1

theorem freeList_mem {s1 : GCState} (hk1 : keysNodup s1) (x : Nat) :
    x ∈ freeListOf s1 ↔ ∃ i, alookup s1.objects x = some i ∧ i.mark ≠ s1.currentMark := by
  constructor
  · intro hx
    obtain ⟨q, hqf, hqx⟩ := List.mem_map.mp hx
    obtain ⟨hqmem, hqpred⟩ := List.mem_filter.mp hqf
    refine ⟨q.2, ?_, by simpa using hqpred⟩
    have hq : ((x, q.2) : Nat × ObjectInfo) ∈ s1.objects := by
      have : q = (x, q.2) := by
        rw [← hqx]
      rwa [this] at hqmem
    exact mem_alookup_of_nodup hk1 hq
  · rintro ⟨i, hl, hst⟩
    exact List.mem_map.mpr ⟨(x, i),
      List.mem_filter.mpr ⟨alookup_mem hl, by simpa using hst⟩, rfl⟩

theorem freeList_nodup {s1 : GCState} (hk1 : keysNodup s1) : (freeListOf s1).Nodup := by
  have hsub : (freeListOf s1).Sublist (s1.objects.map (fun q => q.1)) :=
    List.Sublist.map _ (List.filter_sublist _)
  exact hsub.nodup hk1

theorem notMem_freeList {s1 : GCState} (hk1 : keysNodup s1) {x : Nat} {i : ObjectInfo}
    (hl : alookup s1.objects x = some i) :
    x ∉ freeListOf s1 ↔ i.mark = s1.currentMark := by
  rw [freeList_mem hk1 x]
  constructor
  · intro hn
    by_contra hne
    exact hn ⟨i, hl, hne⟩
  · rintro heq ⟨j, hl2, hst⟩
    rw [hl] at hl2
    cases hl2
    exact hst heq

theorem isMarked_of_lookup {s1 : GCState} {x : Nat} {i : ObjectInfo}
    (hl : alookup s1.objects x = some i) :
    isMarked s1 x = true ↔ i.mark = s1.currentMark := by
  unfold isMarked
  rw [hl]
  simp

theorem collect_setup (s : GCState) (hk : keysNodup s) (hmu : marksUniform s) :
    ∃ s1, markRoots (flipMark s) (flipMark s).pointers = some s1 ∧
      MarkPre (flipMark s) s1 ∧ keysNodup s1 ∧
      s1.currentMark = !s.currentMark ∧ s1.pointers = s.pointers ∧
      (∀ x, isMarked s1 x = true ↔ Reachable s x) ∧
      CollectGarbage s = some (sweepLoop s1 (freeListOf s1) []) := by
  cases hmr : markRoots (flipMark s) (flipMark s).pointers with
  | none => exact absurd hmr (fun h => roots_not_none _ _ h)
  | some s1 =>
    have hpre : MarkPre (flipMark s) s1 := roots_pre _ _ _ hmr
    have hk1 : keysNodup s1 := by
      unfold keysNodup
      have h1 := mp_keys hpre
      rw [show s1.objects.map (fun q => q.1) = keysOf s1 from rfl, h1]
      exact hk
    refine ⟨s1, rfl, hpre, hk1, ?_, ?_, marked_iff_reachable hmu hmr, ?_⟩
    · rw [hpre.2.1]
      rfl
    · rw [hpre.1]
      rfl
    · simp only [CollectGarbage, hmr]

theorem collect_ok_main (s : GCState) (hk : keysNodup s) (hmu : marksUniform s)
    (hb : allBound s) :
    ∃ s' fin, CollectGarbage s = some (.ok s' fin) ∧
      (∀ x, isRegistered s' x = true ↔ (isRegistered s x = true ∧ Reachable s x)) ∧
      (∀ x, x ∈ fin ↔ (isRegistered s x = true ∧ ¬ Reachable s x)) ∧
      fin.Nodup ∧ marksUniform s' ∧ keysNodup s' ∧ allBound s' ∧
      s'.currentMark = !s.currentMark := by
  obtain ⟨s1, hmr, hpre, hk1, hcur1, hptr1, hiff, hcg⟩ := collect_setup s hk hmu
  have hall1 : ∀ q ∈ s1.objects, q.2.destroyBound = true :=
    forall2_allBound hpre.2.2.2 (fun q hq => hb q hq)
  have hreg1 : ∀ x, isRegistered s1 x = isRegistered s x := fun x =>
    mp_isRegistered hpre x
  have hpres : ∀ a ∈ freeListOf s1, ∃ i, alookup s1.objects a = some i ∧
      i.destroyBound = true := by
    intro a ha
    obtain ⟨i, hl, _⟩ := (freeList_mem hk1 a).mp ha
    exact ⟨i, hl, hall1 (a, i) (alookup_mem hl)⟩
  obtain ⟨s', hrun, hcur', hsub, hchar⟩ :=
    sweepLoop_ok (freeListOf s1) s1 [] (freeList_nodup hk1) hpres
  have hk' : keysNodup s' := by
    unfold keysNodup
    exact hsub.nodup hk1
  have hfree_iff : ∀ x, x ∈ freeListOf s1 ↔
      (isRegistered s x = true ∧ ¬ Reachable s x) := by
    intro x
    rw [freeList_mem hk1 x]
    constructor
    · rintro ⟨i, hl, hst⟩
      refine ⟨by rw [← hreg1 x]; simp [isRegistered, hl], ?_⟩
      intro hreach
      have := (hiff x).mpr hreach
      rw [(isMarked_of_lookup hl)] at this
      exact hst this
    · rintro ⟨hreg, hnr⟩
      rw [← hreg1 x] at hreg
      cases hl : alookup s1.objects x with
      | none => rw [isRegistered, hl] at hreg; simp at hreg
      | some i =>
        refine ⟨i, rfl, ?_⟩
        intro heq
        exact hnr ((hiff x).mp ((isMarked_of_lookup hl).mpr heq))
  refine ⟨s', freeListOf s1, ?_, ?_, ?_, freeList_nodup hk1, ?_, hk', ?_, ?_⟩
  · rw [hcg, hrun]
    simp
  · intro x
    by_cases hxf : x ∈ freeListOf s1
    · have hnone : alookup s'.objects x = none := by
        have := hchar x
        rw [if_pos hxf] at this
        cases h2 : alookup s'.objects x with
        | none => rfl
        | some j => rw [h2] at this; simp at this
      have h3 := (hfree_iff x).mp hxf
      constructor
      · intro h
        rw [isRegistered, hnone] at h
        simp at h
      · rintro ⟨_, hr⟩
        exact absurd hr h3.2
    · have := hchar x
      rw [if_neg hxf] at this
      have hregeq : isRegistered s' x = isRegistered s1 x := by
        unfold isRegistered
        cases h2 : alookup s'.objects x with
        | none =>
          rw [h2] at this
          cases h3 : alookup s1.objects x with
          | none => rfl
          | some j => rw [h3] at this; simp at this
        | some j =>
          rw [h2] at this
          cases h3 : alookup s1.objects x with
          | none => rw [h3] at this; simp at this
          | some j2 => rfl
      constructor
      · intro h
        rw [hregeq, hreg1 x] at h
        refine ⟨h, ?_⟩
        rw [← hreg1 x] at h
        cases hl : alookup s1.objects x with
        | none => rw [isRegistered, hl] at h; simp at h
        | some i =>
          refine (hiff x).mp ((isMarked_of_lookup hl).mpr ?_)
          exact (notMem_freeList hk1 hl).mp hxf
      · rintro ⟨hreg, _⟩
        rw [hregeq, hreg1 x]
        exact hreg
  · intro x
    exact hfree_iff x
  · intro q hq
    have hlq : alookup s'.objects q.1 = some q.2 := mem_alookup_of_nodup hk' hq
    have := hchar q.1
    by_cases hxf : q.1 ∈ freeListOf s1
    · rw [if_pos hxf, hlq] at this
      simp at this
    · rw [if_neg hxf, hlq] at this
      cases hl1 : alookup s1.objects q.1 with
      | none => rw [hl1] at this; simp at this
      | some i1 =>
        rw [hl1] at this
        simp only [Option.map_some'] at this
        have hsh := Option.some.inj this
        have hmark : q.2.mark = i1.mark := (recShape_parts hsh).2.2.1
        rw [hmark, hcur']
        exact (notMem_freeList hk1 hl1).mp hxf
  · intro q hq
    have hlq : alookup s'.objects q.1 = some q.2 := mem_alookup_of_nodup hk' hq
    have := hchar q.1
    by_cases hxf : q.1 ∈ freeListOf s1
    · rw [if_pos hxf, hlq] at this
      simp at this
    · rw [if_neg hxf, hlq] at this
      cases hl1 : alookup s1.objects q.1 with
      | none => rw [hl1] at this; simp at this
      | some i1 =>
        rw [hl1] at this
        simp only [Option.map_some'] at this
        have hsh := Option.some.inj this
        rw [(recShape_parts hsh).2.2.2]
        exact hall1 (q.1, i1) (alookup_mem hl1)
  · rw [hcur', hcur1]

theorem collect_fatal_iff (s : GCState) (hk : keysNodup s) (hmu : marksUniform s) :
    ∃ out, CollectGarbage s = some out ∧
      ((∃ st f2 ad, out = .fatal st f2 ad) ↔
        ∃ a i, alookup s.objects a = some i ∧ ¬ Reachable s a ∧
          i.destroyBound = false) := by
  obtain ⟨s1, hmr, hpre, hk1, hcur1, hptr1, hiff, hcg⟩ := collect_setup s hk hmu
  have hpres : ∀ a ∈ freeListOf s1, (alookup s1.objects a).isSome = true := by
    intro a ha
    obtain ⟨i, hl, _⟩ := (freeList_mem hk1 a).mp ha
    simp [hl]
  have hfat := sweepLoop_fatal_iff (freeListOf s1) s1 [] (freeList_nodup hk1) hpres
  refine ⟨sweepLoop s1 (freeListOf s1) [], hcg, ?_⟩
  rw [hfat]
  constructor
  · rintro ⟨a, haf, i1, hl1, hbd1⟩
    obtain ⟨i0, hst⟩ := (freeList_mem hk1 a).mp haf
    have hreg : isRegistered s a = true := by
      have h2 : isRegistered (flipMark s) a = true := by
        rw [← mp_isRegistered hpre a]
        simp [isRegistered, hl1]
      exact h2
    cases hl0 : alookup s.objects a with
    | none => rw [isRegistered, hl0] at hreg; simp at hreg
    | some i =>
      refine ⟨a, i, hl0, ?_, ?_⟩
      · intro hreach
        have hm := (hiff a).mpr hreach
        rw [isMarked_of_lookup hl1] at hm
        rw [hl1] at hst
        cases hst.1
        exact hst.2 hm
      · have := mp_alookup_some hpre (x := a) (i := i) hl0
        obtain ⟨j, hj, _, _, hbd, _, _⟩ := this
        rw [hl1] at hj
        cases hj
        rw [← hbd]
        exact hbd1
  · rintro ⟨a, i, hl0, hnr, hbd⟩
    obtain ⟨j, hj, _, _, hbdj, _, _⟩ := mp_alookup_some hpre (x := a) (i := i) hl0
    refine ⟨a, ?_, j, hj, by rw [hbdj]; exact hbd⟩
    rw [freeList_mem hk1 a]
    refine ⟨j, hj, ?_⟩
    intro heq
    exact hnr ((hiff a).mp ((isMarked_of_lookup hj).mpr heq))

/-! ### Auxiliary facts for the claims -/

theorem mem_insertObj {l : List (Nat × ObjectInfo)} {a : Nat} {i : ObjectInfo}
    {q : Nat × ObjectInfo} (h : q ∈ insertObj l a i) : q = (a, i) ∨ q ∈ l := by
  induction l with
  | nil => simpa [insertObj] using h
  | cons r t ih =>
    rcases Nat.lt_trichotomy a r.1 with hlt | heq | hgt
    · simp only [insertObj, hlt, if_pos] at h
      rcases List.mem_cons.mp h with h1 | h1
      · exact Or.inl h1
      · exact Or.inr h1
    · simp only [insertObj, heq, Nat.lt_irrefl, if_neg, if_pos, not_false_iff] at h
      rcases List.mem_cons.mp h with h1 | h1
      · refine Or.inl ?_
        rw [heq]
        exact h1
      · exact Or.inr (List.mem_cons_of_mem _ h1)
    · have h1 : ¬ a < r.1 := Nat.not_lt_of_lt hgt
      have h2 : ¬ a = r.1 := (Nat.ne_of_lt hgt).symm
      simp only [insertObj, h1, h2, if_neg, not_false_iff] at h
      rcases List.mem_cons.mp h with h3 | h3
      · exact Or.inr (h3 ▸ List.mem_cons_self _ _)
      · rcases ih h3 with h4 | h4
        · exact Or.inl h4
        · exact Or.inr (List.mem_cons_of_mem _ h4)

theorem noRoots_not_reachable {s : GCState}
    (hnr : ∀ h ∈ s.pointers, h.isRoot = false) (x : Nat) : ¬ Reachable s x := by
  rintro ⟨r, ⟨h, hm, hro, _, _⟩, _⟩
  rw [hnr h hm] at hro
  cases hro

/-! ### The claims -/

/-- C1.  For every heap state whose registry is consistent (distinct
keys), whose records all carry the current epoch (the steady state
between collections) and whose finalizers are all bound, one `collect()`
succeeds, and afterwards an address is registered exactly when it was
registered before and reachable from some Root Handle by
bound-address-range-embedding, transitively; every registered
unreachable address is removed and appears exactly once in the finalized
list (its finalizer having been invoked on it as its storage was
released). -/
theorem C1_reachability_correctness (s : GCState) (hk : keysNodup s)
    (hmu : marksUniform s) (hb : allBound s) :
    ∃ s' fin, CollectGarbage s = some (.ok s' fin) ∧
      (∀ x, isRegistered s' x = true ↔ (isRegistered s x = true ∧ Reachable s x)) ∧
      (∀ x, x ∈ fin ↔ (isRegistered s x = true ∧ ¬ Reachable s x)) ∧
      fin.Nodup := by
  obtain ⟨s', fin, h1, h2, h3, h4, _⟩ := collect_ok_main s hk hmu hb
  exact ⟨s', fin, h1, h2, h3, h4⟩

/-- Witness for C1 at the demonstration heap. -/
theorem C1_reachability_correctness_witness :
    keysNodup scenarioState ∧ marksUniform scenarioState ∧ allBound scenarioState ∧
    (∃ s' fin, CollectGarbage scenarioState = some (.ok s' fin) ∧
      (∀ x, isRegistered s' x = true ↔
        (isRegistered scenarioState x = true ∧ Reachable scenarioState x)) ∧
      (∀ x, x ∈ fin ↔
        (isRegistered scenarioState x = true ∧ ¬ Reachable scenarioState x)) ∧
      fin.Nodup) :=
  ⟨by decide, by decide, by decide,
    C1_reachability_correctness scenarioState (by decide) (by decide) (by decide)⟩

/-- C2.  In the demonstration scenario (root-held `A` referencing `B`
and `C`, `C` referencing `D`, `D` referencing back `C`, then `A`'s
reference to `C` cleared) a single `collect()` frees exactly `C` (300)
and `D` (400) — the now-unreached cycle — while `A` (100) and `B` (200)
remain registered. -/
theorem C2_cycle_scenario :
    CollectGarbage scenarioState = some (.ok scenarioAfter [300, 400]) ∧
    keysOf scenarioAfter = [100, 200] ∧
    isRegistered scenarioAfter 100 = true ∧ isRegistered scenarioAfter 200 = true ∧
    isRegistered scenarioAfter 300 = false ∧ isRegistered scenarioAfter 400 = false := by
  refine ⟨?_, ?_, ?_, ?_, ?_, ?_⟩ <;> decide

/-- C3.  Under a consistent registry in the steady state, `collect()`
reaches the fatal path (calling a never-bound finalizer during sweep) if
and only if some record that is selected for sweeping — i.e. registered
but unreachable from the roots — has no bound finalizer; in particular
when every swept record's finalizer is bound the collection completes
without the fatal path, and an unbound swept record is never silently
skipped. -/
theorem C3_sweep_fatal_iff_unbound (s : GCState) (hk : keysNodup s)
    (hmu : marksUniform s) :
    ∃ out, CollectGarbage s = some out ∧
      ((∃ st f2 ad, out = .fatal st f2 ad) ↔
        ∃ a i, alookup s.objects a = some i ∧ ¬ Reachable s a ∧
          i.destroyBound = false) :=
  collect_fatal_iff s hk hmu

/-- Witness for C3 at the demonstration heap. -/
theorem C3_sweep_fatal_iff_unbound_witness :
    keysNodup scenarioState ∧ marksUniform scenarioState ∧
    (∃ out, CollectGarbage scenarioState = some out ∧
      ((∃ st f2 ad, out = .fatal st f2 ad) ↔
        ∃ a i, alookup scenarioState.objects a = some i ∧
          ¬ Reachable scenarioState a ∧ i.destroyBound = false)) :=
  ⟨by decide, by decide,
    C3_sweep_fatal_iff_unbound scenarioState (by decide) (by decide)⟩

/-- C10.  A collection always runs to completion: for every heap state,
including graphs with reference cycles among reachable records, the
recursive mark phase stays within the depth bound the collector provides
(it only recurses into records not yet at the current epoch) and
`CollectGarbage` returns a result. -/
theorem C10_collect_terminates (s : GCState) : (CollectGarbage s).isSome = true := by
  unfold CollectGarbage
  cases hmr : markRoots (flipMark s) (flipMark s).pointers with
  | none => exact absurd hmr (fun h => roots_not_none _ _ h)
  | some s1 => simp [hmr]

/-! ### Handle bookkeeping lemmas for the registration claims -/

theorem findH_map_update (l : List HandleRec) (p : Nat) (o i : Option Nat) :
    findH (l.map (fun h => if h.addr = p then { h with object := o, info := i } else h)) p
      = (findH l p).map (fun h => { h with object := o, info := i }) := by
  induction l with
  | nil => rfl
  | cons h t ih =>
    by_cases hp : h.addr = p
    · simp [findH, hp]
    · simp [findH, hp, ih]

theorem ptrDtor_pointers (s : GCState) (p : Nat) :
    (ptrDtor s p).pointers = removeH s.pointers p := by
  unfold ptrDtor
  cases hf : findH s.pointers p with
  | none => rfl
  | some h =>
    cases hi : h.info with
    | none => simp [hi]
    | some c => simp [hi]

theorem removeH_count : ∀ (l : List HandleRec) (p : Nat),
    l.countP (fun h => h.addr == p) = 1 →
    (removeH l p).length + 1 = l.length ∧
    (removeH l p).countP (fun h => h.addr == p) = 0 := by
  intro l
  induction l with
  | nil =>
    intro p h
    simp at h
  | cons h t ih =>
    intro p hc
    by_cases hp : h.addr = p
    · have hpt : (h.addr == p) = true := by simp [hp]
      have hc' : t.countP (fun x => x.addr == p) + 1 = 1 := by
        simpa [List.countP_cons, hpt] using hc
      have hcnt : t.countP (fun x => x.addr == p) = 0 := by omega
      have hz : removeH (h :: t) p = t := by simp [removeH, hp]
      rw [hz]
      exact ⟨by simp, hcnt⟩
    · have hpt : (h.addr == p) = false := by simp [hp]
      have hc' : t.countP (fun x => x.addr == p) = 1 := by
        simpa [List.countP_cons, hpt] using hc
      obtain ⟨hl, hz⟩ := ih p hc'
      have hr : removeH (h :: t) p = h :: removeH t p := by simp [removeH, hp]
      rw [hr]
      constructor
      · simp only [List.length_cons]
        omega
      · rw [List.countP_cons]
        simp [hpt, hz]

/-! ### More claims -/

/-- C7.  A freshly allocated record is tagged with the allocation-time
mark epoch ("born unmarked"), `collect()` flips the epoch before
marking, and therefore an object allocated before a collection (here
with a typed non-root handle attached, which binds its finalizer) that
is not reached from any Root Handle during that collection's mark phase
is swept by that very collection. -/
theorem C7_born_unmarked (s : GCState) (addr sz p : Nat) (hk : keysNodup s)
    (hmu : marksUniform s) (hb : allBound s)
    (hfresh : alookup s.objects addr = none)
    (hnr : ¬ Reachable (ptrCtorRaw (opNew s addr sz) p false (some addr) none) addr) :
    ((alookup (opNew s addr sz).objects addr).map (fun i => i.mark) =
      some s.currentMark) ∧
    (flipMark (ptrCtorRaw (opNew s addr sz) p false (some addr) none)).currentMark =
      (!s.currentMark) ∧
    ∃ s' fin, CollectGarbage (ptrCtorRaw (opNew s addr sz) p false (some addr) none) =
        some (.ok s' fin) ∧ addr ∈ fin ∧ isRegistered s' addr = false := by
  have hlook : alookup (opNew s addr sz).objects addr =
      some { object := addr, size := sz, mark := s.currentMark,
             destroyBound := false, pointers := [] } := by
    show alookup (insertObj s.objects addr _) addr = _
    rw [alookup_insertObj]
    simp
  have hs2obj : (ptrCtorRaw (opNew s addr sz) p false (some addr) none).objects =
      aupdate (opNew s addr sz).objects addr
        (fun i => { i with pointers := i.pointers ++ [p], destroyBound := true }) := by
    simp only [ptrCtorRaw, hlook]
  have hs2cur : (ptrCtorRaw (opNew s addr sz) p false (some addr) none).currentMark =
      s.currentMark := by
    simp only [ptrCtorRaw, hlook]
    rfl
  have hreg2 : isRegistered (ptrCtorRaw (opNew s addr sz) p false (some addr) none) addr
      = true := by
    unfold isRegistered
    rw [hs2obj, alookup_aupdate]
    simp [hlook]
  have hk2 : keysNodup (ptrCtorRaw (opNew s addr sz) p false (some addr) none) := by
    unfold keysNodup
    rw [hs2obj, keys_aupdate]
    exact keys_insertObj_nodup s.objects addr _ hk hfresh
  have hmem2 : ∀ q ∈ (ptrCtorRaw (opNew s addr sz) p false (some addr) none).objects,
      (q.2.mark = s.currentMark ∧ q.2.destroyBound = true) ∨
      (q ∈ s.objects ∧ q.1 ≠ addr) := by
    intro q hq
    rw [hs2obj] at hq
    obtain ⟨q0, hq0, hfq⟩ := List.mem_map.mp hq
    by_cases hqa : q0.1 = addr
    · left
      rcases mem_insertObj hq0 with h1 | h1
      · rw [h1] at hfq
        simp only [if_pos] at hfq
        rw [← hfq]
        exact ⟨rfl, rfl⟩
      · exfalso
        exact (alookup_none_iff s.objects addr).mp hfresh
          (hqa ▸ List.mem_map.mpr ⟨q0, h1, rfl⟩)
    · right
      rw [if_neg hqa] at hfq
      rw [← hfq]
      rcases mem_insertObj hq0 with h1 | h1
      · exact absurd (by rw [h1]) hqa
      · exact ⟨h1, hqa⟩
  have hmu2 : marksUniform (ptrCtorRaw (opNew s addr sz) p false (some addr) none) := by
    intro q hq
    rw [hs2cur]
    rcases hmem2 q hq with ⟨h1, _⟩ | ⟨h1, _⟩
    · exact h1
    · exact hmu q h1
  have hb2 : allBound (ptrCtorRaw (opNew s addr sz) p false (some addr) none) := by
    intro q hq
    rcases hmem2 q hq with ⟨_, h1⟩ | ⟨h1, _⟩
    · exact h1
    · exact hb q h1
  obtain ⟨s', fin, hcg, hregiff, hfin, hnd, _⟩ :=
    collect_ok_main _ hk2 hmu2 hb2
  refine ⟨?_, ?_, s', fin, hcg, ?_, ?_⟩
  · rw [hlook]
    rfl
  · show (!(ptrCtorRaw (opNew s addr sz) p false (some addr) none).currentMark) = _
    rw [hs2cur]
  · exact (hfin addr).mpr ⟨hreg2, hnr⟩
  · cases hsr : isRegistered s' addr
    · rfl
    · exact absurd ((hregiff addr).mp hsr).2 hnr

/-- Witness for C7: allocate at 100 with a non-root handle at 10 on the
empty heap; nothing is a root, so the record is swept. -/
theorem C7_born_unmarked_witness :
    keysNodup emptyState ∧ marksUniform emptyState ∧ allBound emptyState ∧
    alookup emptyState.objects 100 = none ∧
    (¬ Reachable (ptrCtorRaw (opNew emptyState 100 8) 10 false (some 100) none) 100) ∧
    (((alookup (opNew emptyState 100 8).objects 100).map (fun i => i.mark) =
      some emptyState.currentMark) ∧
    (flipMark (ptrCtorRaw (opNew emptyState 100 8) 10 false (some 100) none)).currentMark =
      (!emptyState.currentMark) ∧
    ∃ s' fin, CollectGarbage (ptrCtorRaw (opNew emptyState 100 8) 10 false (some 100) none) =
        some (.ok s' fin) ∧ 100 ∈ fin ∧ isRegistered s' 100 = false) :=
  ⟨by decide, by decide, by decide, by decide,
    noRoots_not_reachable (by decide) 100,
    C7_born_unmarked emptyState 100 8 10 (by decide) (by decide) (by decide)
      (by decide) (noRoots_not_reachable (by decide) 100)⟩

/-- C9.  Explicit deallocation of an address the registry does not know
about is a plain release with no bookkeeping: the entire collector state
— record table, handle registry, live-byte counter and every handle —
is unchanged. -/
theorem C9_delete_unknown_noop (s : GCState) (a : Nat)
    (hmiss : alookup s.objects a = none) : opDelete s a = s := by
  unfold opDelete
  rw [hmiss]

/-- Witness for C9 on the post-collection demonstration heap. -/
theorem C9_delete_unknown_noop_witness :
    alookup scenarioAfter.objects 999 = none ∧
    opDelete scenarioAfter 999 = scenarioAfter :=
  ⟨by decide, C9_delete_unknown_noop scenarioAfter 999 (by decide)⟩

/-- C8.  Code bug in `Ptr(T*)`: the record back-reference is assigned
only inside the lookup-hit branch — unlike `operator=(T*)` the
constructor has no `else`, and `IPtr` declares no member initializer —
so constructing a handle from an unregistered raw address keeps the
indeterminate prior contents of the handle's storage as its record
reference instead of the empty reference the claim states.  At the
failing input (address 999 unregistered, prior contents naming the live
record 100) the fresh handle appears bound to record 100.  Reassigning
an existing handle to such an address does behave as claimed: target
set, record reference empty, `isValid()` true. -/
theorem C8_unmanaged_address_dangles :
    isRegistered scenarioAfter 999 = false ∧
    (∀ j : Option Nat,
      handleAt (ptrCtorRaw scenarioAfter 50 false (some 999) j) 50 =
        some ⟨50, false, some 999, j⟩) ∧
    (∃ h, handleAt (ptrCtorRaw scenarioAfter 50 false (some 999) (some 100)) 50 =
        some h ∧ h.isValid = true ∧ ¬ h.info = none) ∧
    (∃ h', handleAt (ptrAssignRaw scenarioAfter 108 (some 999)) 108 = some h' ∧
      h'.object = some 999 ∧ h'.info = none ∧ h'.isValid = true) := by
  refine ⟨by decide, ?_, ?_, ?_⟩
  · intro j
    rfl
  · exact ⟨⟨50, false, some 999, some 100⟩, rfl, rfl, by decide⟩
  · exact ⟨⟨108, false, some 999, none⟩, rfl, rfl, rfl, rfl⟩

/-- C6.  Every handle constructor (default, from a raw address, and
copy) appends exactly one entry for the new handle to the global handle
registry, bound or not, and destruction removes exactly that handle's
entry: so at every observation point the registry size equals the
number of constructed-but-not-destroyed handles. -/
theorem C6_registration_symmetry (s : GCState) (p : Nat) (root : Bool)
    (t j : Option Nat) (src : Nat) (o : HandleRec)
    (hsrc : findH s.pointers src = some o)
    (hone : s.pointers.countP (fun h => h.addr == p) = 1) :
    ((ptrCtorDefault s p root).pointers.length = s.pointers.length + 1 ∧
      countAddr (ptrCtorDefault s p root) p = countAddr s p + 1) ∧
    ((ptrCtorRaw s p root t j).pointers.length = s.pointers.length + 1 ∧
      countAddr (ptrCtorRaw s p root t j) p = countAddr s p + 1) ∧
    ((ptrCtorCopy s p root src).pointers.length = s.pointers.length + 1 ∧
      countAddr (ptrCtorCopy s p root src) p = countAddr s p + 1) ∧
    ((ptrDtor s p).pointers.length + 1 = s.pointers.length ∧
      countAddr (ptrDtor s p) p = 0) := by
  refine ⟨⟨?_, ?_⟩, ⟨?_, ?_⟩, ⟨?_, ?_⟩, ⟨?_, ?_⟩⟩
  · simp [ptrCtorDefault]
  · simp [ptrCtorDefault, countAddr, List.countP_append, List.countP_cons]
  · cases t with
    | none => simp [ptrCtorRaw]
    | some a =>
      cases hl : alookup s.objects a with
      | none => simp [ptrCtorRaw, hl]
      | some i => simp [ptrCtorRaw, hl]
  · cases t with
    | none => simp [ptrCtorRaw, countAddr, List.countP_append, List.countP_cons]
    | some a =>
      cases hl : alookup s.objects a with
      | none => simp [ptrCtorRaw, hl, countAddr, List.countP_append, List.countP_cons]
      | some i => simp [ptrCtorRaw, hl, countAddr, List.countP_append, List.countP_cons]
  · cases hi : o.info with
    | none => simp [ptrCtorCopy, hsrc, hi]
    | some c => simp [ptrCtorCopy, hsrc, hi]
  · cases hi : o.info with
    | none => simp [ptrCtorCopy, hsrc, hi, countAddr, List.countP_append, List.countP_cons]
    | some c => simp [ptrCtorCopy, hsrc, hi, countAddr, List.countP_append, List.countP_cons]
  · rw [ptrDtor_pointers]
    exact (removeH_count s.pointers p hone).1
  · unfold countAddr
    rw [ptrDtor_pointers]
    exact (removeH_count s.pointers p hone).2

/-- Witness for C6 on the post-collection demonstration heap (the
handle at 10 occurs exactly once; 100 is a valid copy source). -/
theorem C6_registration_symmetry_witness :
    findH scenarioAfter.pointers 100 =
      some { addr := 100, isRoot := false, object := some 200, info := some 200 } ∧
    scenarioAfter.pointers.countP (fun h => h.addr == 10) = 1 ∧
    (((ptrCtorDefault scenarioAfter 10 false).pointers.length =
        scenarioAfter.pointers.length + 1 ∧
      countAddr (ptrCtorDefault scenarioAfter 10 false) 10 =
        countAddr scenarioAfter 10 + 1) ∧
    ((ptrCtorRaw scenarioAfter 10 false none none).pointers.length =
        scenarioAfter.pointers.length + 1 ∧
      countAddr (ptrCtorRaw scenarioAfter 10 false none none) 10 =
        countAddr scenarioAfter 10 + 1) ∧
    ((ptrCtorCopy scenarioAfter 10 false 100).pointers.length =
        scenarioAfter.pointers.length + 1 ∧
      countAddr (ptrCtorCopy scenarioAfter 10 false 100) 10 =
        countAddr scenarioAfter 10 + 1) ∧
    ((ptrDtor scenarioAfter 10).pointers.length + 1 =
        scenarioAfter.pointers.length ∧
      countAddr (ptrDtor scenarioAfter 10) 10 = 0)) :=
  ⟨by decide, by decide,
    C6_registration_symmetry scenarioAfter 10 false none none 100
      { addr := 100, isRoot := false, object := some 200, info := some 200 }
      (by decide) (by decide)⟩

/-! ### Handle-registry tracking through the sweep -/

theorem findH_addr : ∀ {l : List HandleRec} {p : Nat} {h : HandleRec},
    findH l p = some h → h.addr = p := by
  intro l
  induction l with
  | nil => intro p h hf; simp [findH] at hf
  | cons e t ih =>
    intro p h hf
    by_cases he : e.addr = p
    · simp only [findH, he, if_pos] at hf
      cases hf
      exact he
    · simp only [findH, he, if_neg, not_false_iff] at hf
      exact ih hf

theorem findH_mem : ∀ {l : List HandleRec} {p : Nat} {h : HandleRec},
    findH l p = some h → h ∈ l := by
  intro l
  induction l with
  | nil => intro p h hf; simp [findH] at hf
  | cons e t ih =>
    intro p h hf
    by_cases he : e.addr = p
    · simp only [findH, he, if_pos] at hf
      cases hf
      exact List.mem_cons_self _ _
    · simp only [findH, he, if_neg, not_false_iff] at hf
      exact List.mem_cons_of_mem _ (ih hf)

theorem findH_none_iff : ∀ (l : List HandleRec) (p : Nat),
    findH l p = none ↔ ∀ e ∈ l, e.addr ≠ p := by
  intro l
  induction l with
  | nil => intro p; simp [findH]
  | cons e t ih =>
    intro p
    by_cases he : e.addr = p
    · simp [findH, he]
    · simp [findH, he, ih]

theorem findH_of_mem_nodup {l : List HandleRec} {h : HandleRec}
    (hn : (l.map (fun e => e.addr)).Nodup) (hm : h ∈ l) :
    findH l h.addr = some h := by
  induction l with
  | nil => simp at hm
  | cons e t ih =>
    simp only [List.map_cons, List.nodup_cons] at hn
    rcases List.mem_cons.mp hm with h1 | h1
    · rw [h1]
      simp [findH]
    · have hne : ¬ e.addr = h.addr := by
        intro hq
        exact hn.1 (hq ▸ List.mem_map.mpr ⟨h, h1, rfl⟩)
      simp only [findH, hne, if_neg, not_false_iff]
      exact ih hn.2 h1

theorem findH_map_pres {g : HandleRec → HandleRec}
    (hg : ∀ e, (g e).addr = e.addr) :
    ∀ (l : List HandleRec) (p : Nat), findH (l.map g) p = (findH l p).map g := by
  intro l
  induction l with
  | nil => intro p; rfl
  | cons e t ih =>
    intro p
    by_cases he : e.addr = p
    · simp [findH, hg, he]
    · simp [findH, hg, he, ih]

theorem removeH_sublist : ∀ (l : List HandleRec) (p : Nat),
    (removeH l p).Sublist l := by
  intro l
  induction l with
  | nil => intro p; simp [removeH]
  | cons e t ih =>
    intro p
    by_cases he : e.addr = p
    · simp only [removeH, he, if_pos]
      exact List.sublist_cons_self _ _
    · simp only [removeH, he, if_neg, not_false_iff]
      exact (ih p).cons₂ _

theorem findH_removeH_ne : ∀ (l : List HandleRec) {p q : Nat}, q ≠ p →
    findH (removeH l q) p = findH l p := by
  intro l
  induction l with
  | nil => intro p q _; rfl
  | cons e t ih =>
    intro p q hqp
    by_cases he : e.addr = q
    · have hep : ¬ e.addr = p := fun h => hqp ((he ▸ h : q = p))
      simp [removeH, findH, he, hep, hqp]
    · by_cases hep : e.addr = p
      · simp [removeH, findH, he, hep, show ¬ p = q from fun h => hqp h.symm]
      · simp [removeH, findH, he, hep, ih hqp]

theorem findH_removeH_self {l : List HandleRec} {p : Nat}
    (hn : (l.map (fun e => e.addr)).Nodup) :
    findH (removeH l p) p = none := by
  induction l with
  | nil => rfl
  | cons e t ih =>
    simp only [List.map_cons, List.nodup_cons] at hn
    by_cases he : e.addr = p
    · simp only [removeH, he, if_pos]
      rw [findH_none_iff]
      intro x hx hxp
      exact hn.1 (he ▸ hxp ▸ List.mem_map.mpr ⟨x, hx, rfl⟩)
    · simp only [removeH, findH, he, if_neg, not_false_iff]
      exact ih hn.2

theorem findH_none_of_sublist {l l' : List HandleRec} {p : Nat}
    (hsub : l'.Sublist l) (h : findH l p = none) : findH l' p = none := by
  rw [findH_none_iff] at h ⊢
  intro e he
  exact h e (hsub.mem he)

theorem removeH_of_findH_none {l : List HandleRec} {p : Nat}
    (h : findH l p = none) : removeH l p = l := by
  induction l with
  | nil => rfl
  | cons e t ih =>
    rw [findH_none_iff] at h
    have he : ¬ e.addr = p := h e (List.mem_cons_self _ _)
    simp only [removeH, he, if_neg, not_false_iff]
    rw [ih]
    rw [findH_none_iff]
    intro x hx
    exact h x (List.mem_cons_of_mem _ hx)

theorem mem_removeH_of_ne {l : List HandleRec} {p : Nat} {e : HandleRec}
    (hm : e ∈ l) (hne : e.addr ≠ p) : e ∈ removeH l p := by
  induction l with
  | nil => simp at hm
  | cons x t ih =>
    by_cases hx : x.addr = p
    · simp only [removeH, hx, if_pos]
      rcases List.mem_cons.mp hm with h1 | h1
      · exact absurd (h1 ▸ hx) hne
      · exact h1
    · simp only [removeH, hx, if_neg, not_false_iff]
      rcases List.mem_cons.mp hm with h1 | h1
      · exact h1 ▸ List.mem_cons_self _ _
      · exact List.mem_cons_of_mem _ (ih h1)

theorem eraseFirstNat_sublist : ∀ (l : List Nat) (p : Nat),
    (eraseFirstNat l p).Sublist l := by
  intro l
  induction l with
  | nil => intro p; simp [eraseFirstNat]
  | cons x t ih =>
    intro p
    by_cases hx : x = p
    · simp only [eraseFirstNat, hx, if_pos]
      exact List.sublist_cons_self _ _
    · simp only [eraseFirstNat, hx, if_neg, not_false_iff]
      exact (ih p).cons₂ _

theorem mem_eraseFirstNat_of_ne {l : List Nat} {p q : Nat}
    (hm : q ∈ l) (hne : q ≠ p) : q ∈ eraseFirstNat l p := by
  induction l with
  | nil => simp at hm
  | cons x t ih =>
    by_cases hx : x = p
    · simp only [eraseFirstNat, hx, if_pos]
      rcases List.mem_cons.mp hm with h1 | h1
      · exact absurd (h1 ▸ hx) hne
      · exact h1
    · simp only [eraseFirstNat, hx, if_neg, not_false_iff]
      rcases List.mem_cons.mp hm with h1 | h1
      · exact h1 ▸ List.mem_cons_self _ _
      · exact List.mem_cons_of_mem _ (ih h1)

theorem not_mem_eraseFirstNat_self {l : List Nat} {p : Nat} (hn : l.Nodup) :
    p ∉ eraseFirstNat l p := by
  induction l with
  | nil => simp [eraseFirstNat]
  | cons x t ih =>
    rw [List.nodup_cons] at hn
    by_cases hx : x = p
    · simp only [eraseFirstNat, hx, if_pos]
      exact hx ▸ hn.1
    · simp only [eraseFirstNat, hx, if_neg, not_false_iff]
      intro hmem
      rcases List.mem_cons.mp hmem with h1 | h1
      · exact hx h1.symm
      · exact ih hn.2 h1

theorem invalidateList_pointers : ∀ (ps : List Nat) (s : GCState),
    (invalidateList s ps).pointers = s.pointers.map
      (fun e => if e.addr ∈ ps then { e with object := none, info := none } else e) := by
  intro ps
  induction ps with
  | nil =>
    intro s
    have : (fun e : HandleRec => if e.addr ∈ ([] : List Nat) then
        { e with object := none, info := none } else e) = fun e => e := by
      funext e
      simp
    rw [this, List.map_id']
    rfl
  | cons q rest ih =>
    intro s
    show (invalidateList (setInvalid s q) rest).pointers = _
    rw [ih (setInvalid s q)]
    show (s.pointers.map (fun e =>
        if e.addr = q then { e with object := none, info := none } else e)).map _ = _
    rw [List.map_map]
    apply List.map_congr_left
    intro e _
    by_cases hq : e.addr = q
    · simp only [hq, if_pos, Function.comp]
      have : ({ e with object := none, info := none } : HandleRec).addr = e.addr := rfl
      simp [this, hq, List.mem_cons]
    · by_cases hr : e.addr ∈ rest
      · simp [Function.comp, hq, hr, List.mem_cons]
      · simp [Function.comp, hq, hr, List.mem_cons]

theorem addr_inj_of_nodup : ∀ {l : List HandleRec},
    (l.map (fun e => e.addr)).Nodup → ∀ {e1 e2 : HandleRec}, e1 ∈ l → e2 ∈ l →
    e1.addr = e2.addr → e1 = e2 := by
  intro l
  induction l with
  | nil =>
    intro _ e1 e2 h1
    simp at h1
  | cons x t ih =>
    intro hn e1 e2 h1 h2 he
    simp only [List.map_cons, List.nodup_cons] at hn
    rcases List.mem_cons.mp h1 with ha | ha <;> rcases List.mem_cons.mp h2 with hb | hb
    · rw [ha, hb]
    · exfalso
      exact hn.1 (ha ▸ he ▸ List.mem_map.mpr ⟨e2, hb, rfl⟩)
    · exfalso
      exact hn.1 (hb ▸ he.symm ▸ List.mem_map.mpr ⟨e1, ha, rfl⟩)
    · exact ih hn.2 ha hb he

theorem ptrDtor_objects (s : GCState) (p : Nat) :
    (ptrDtor s p).objects =
      (match findH s.pointers p with
      | some h =>
        match h.info with
        | some c => aupdate s.objects c
            (fun i => { i with pointers := eraseFirstNat i.pointers p })
        | none => s.objects
      | none => s.objects) := by
  unfold ptrDtor
  cases hf : findH s.pointers p with
  | none => rfl
  | some h =>
    cases hi : h.info with
    | none => simp [hi]
    | some c => simp [hi]

theorem hinv_ptrDtor {s : GCState} (hinv : HandleInv s) (p : Nat) :
    HandleInv (ptrDtor s p) := by
  obtain ⟨hnd, hrp, hbl, hlb⟩ := hinv
  have hptr := ptrDtor_pointers s p
  have hobj := ptrDtor_objects s p
  have hnd' : handlesNodup (ptrDtor s p) := by
    unfold handlesNodup
    rw [hptr]
    exact (((removeH_sublist s.pointers p).map _).nodup) hnd
  cases hf : findH s.pointers p with
  | none =>
    simp only [hf] at hobj
    have hpeq : (ptrDtor s p).pointers = s.pointers := by
      rw [hptr, removeH_of_findH_none hf]
    refine ⟨hnd', ?_, ?_, ?_⟩
    · intro q hq
      rw [hobj] at hq
      exact hrp q hq
    · intro hq hmem a hia
      rw [hpeq] at hmem
      obtain ⟨i, hla, hin⟩ := hbl hq hmem a hia
      refine ⟨i, ?_, hin⟩
      rw [hobj]
      exact hla
    · intro q hq pe hpe
      rw [hobj] at hq
      obtain ⟨e, hem, hea, hei⟩ := hlb q hq pe hpe
      refine ⟨e, ?_, hea, hei⟩
      rw [hpeq]
      exact hem
  | some h =>
    simp only [hf] at hobj
    have hhadr : h.addr = p := findH_addr hf
    have hhm : h ∈ s.pointers := findH_mem hf
    have hnop : ∀ e ∈ removeH s.pointers p, e.addr ≠ p := by
      intro e he
      have := findH_removeH_self (l := s.pointers) (p := p) hnd
      rw [findH_none_iff] at this
      exact this e he
    cases hi : h.info with
    | none =>
      simp only [hi] at hobj
      refine ⟨hnd', ?_, ?_, ?_⟩
      · intro q hq
        rw [hobj] at hq
        exact hrp q hq
      · intro hq hmem a hia
        rw [hptr] at hmem
        have hqs : hq ∈ s.pointers := (removeH_sublist s.pointers p).mem hmem
        obtain ⟨i, hla, hin⟩ := hbl hq hqs a hia
        refine ⟨i, ?_, hin⟩
        rw [hobj]
        exact hla
      · intro q hq pe hpe
        rw [hobj] at hq
        obtain ⟨e, hem, hea, hei⟩ := hlb q hq pe hpe
        have hep : e.addr ≠ p := by
          intro heq
          have : e = h := addr_inj_of_nodup hnd hem hhm (heq.trans hhadr.symm)
          rw [this, hi] at hei
          cases hei
        refine ⟨e, ?_, hea, hei⟩
        rw [hptr]
        exact mem_removeH_of_ne hem hep
    | some c =>
      simp only [hi] at hobj
      refine ⟨hnd', ?_, ?_, ?_⟩
      · intro q hq
        rw [hobj] at hq
        obtain ⟨q0, hq0, hfq⟩ := List.mem_map.mp hq
        by_cases hqc : q0.1 = c
        · rw [if_pos hqc] at hfq
          rw [← hfq]
          exact ((eraseFirstNat_sublist _ _).nodup) (hrp q0 hq0)
        · rw [if_neg hqc] at hfq
          rw [← hfq]
          exact hrp q0 hq0
      · intro hq hmem a hia
        rw [hptr] at hmem
        have hqs : hq ∈ s.pointers := (removeH_sublist s.pointers p).mem hmem
        obtain ⟨i, hla, hin⟩ := hbl hq hqs a hia
        have hqp : hq.addr ≠ p := hnop hq hmem
        rw [hobj, alookup_aupdate]
        by_cases hac : a = c
        · rw [if_pos hac, hla]
          exact ⟨_, rfl, mem_eraseFirstNat_of_ne hin hqp⟩
        · rw [if_neg hac]
          exact ⟨i, hla, hin⟩
      · intro q hq pe hpe
        rw [hobj] at hq
        obtain ⟨q0, hq0, hfq⟩ := List.mem_map.mp hq
        by_cases hqc : q0.1 = c
        · rw [if_pos hqc] at hfq
          have hq1 : q.1 = q0.1 := by rw [← hfq]
          have hpe0 : pe ∈ eraseFirstNat q0.2.pointers p := by
            have : q.2.pointers = eraseFirstNat q0.2.pointers p := by rw [← hfq]
            rwa [this] at hpe
          have hpep : pe ≠ p := by
            intro heq
            exact (not_mem_eraseFirstNat_self (hrp q0 hq0)) (heq ▸ hpe0)
          obtain ⟨e, hem, hea, hei⟩ := hlb q0 hq0 pe
            ((eraseFirstNat_sublist _ _).mem hpe0)
          refine ⟨e, ?_, hea, by rw [hq1]; exact hei⟩
          rw [hptr]
          exact mem_removeH_of_ne hem (hea ▸ hpep)
        · rw [if_neg hqc] at hfq
          rw [← hfq] at hpe ⊢
          obtain ⟨e, hem, hea, hei⟩ := hlb q0 hq0 pe hpe
          have hep : e.addr ≠ p := by
            intro heq
            have : e = h := addr_inj_of_nodup hnd hem hhm (heq.trans hhadr.symm)
            rw [this, hi] at hei
            cases hei
            exact hqc rfl
          refine ⟨e, ?_, hea, hei⟩
          rw [hptr]
          exact mem_removeH_of_ne hem hep

theorem hinv_destructList : ∀ (ps : List Nat) {s : GCState}, HandleInv s →
    HandleInv (destructEmbedded.destructList s ps) := by
  intro ps
  induction ps with
  | nil => intro s h; exact h
  | cons p rest ih =>
    intro s h
    exact ih (hinv_ptrDtor h p)

theorem handlesNodup_ptrDtor {s : GCState} (hn : handlesNodup s) (p : Nat) :
    handlesNodup (ptrDtor s p) := by
  unfold handlesNodup
  rw [ptrDtor_pointers]
  exact (((removeH_sublist s.pointers p).map _).nodup) hn

theorem dl_findH_not_mem : ∀ (ps : List Nat) (s : GCState) (p : Nat), p ∉ ps →
    findH (destructEmbedded.destructList s ps).pointers p = findH s.pointers p := by
  intro ps
  induction ps with
  | nil => intro s p _; rfl
  | cons q rest ih =>
    intro s p hnm
    have hpq : p ≠ q := fun h => hnm (h ▸ List.mem_cons_self _ _)
    have hpr : p ∉ rest := fun h => hnm (List.mem_cons_of_mem _ h)
    show findH (destructEmbedded.destructList (ptrDtor s q) rest).pointers p = _
    rw [ih (ptrDtor s q) p hpr, ptrDtor_pointers]
    exact findH_removeH_ne s.pointers (fun h => hpq h.symm)

theorem dl_findH_mem : ∀ (ps : List Nat) (s : GCState) (p : Nat), handlesNodup s →
    p ∈ ps → findH (destructEmbedded.destructList s ps).pointers p = none := by
  intro ps
  induction ps with
  | nil =>
    intro s p _ h
    simp at h
  | cons q rest ih =>
    intro s p hn hmem
    show findH (destructEmbedded.destructList (ptrDtor s q) rest).pointers p = none
    by_cases hpq : p = q
    · subst hpq
      have hnone : findH (ptrDtor s p).pointers p = none := by
        rw [ptrDtor_pointers]
        exact findH_removeH_self hn
      by_cases hpr : p ∈ rest
      · exact ih (ptrDtor s p) p (handlesNodup_ptrDtor hn p) hpr
      · rw [dl_findH_not_mem rest (ptrDtor s p) p hpr]
        exact hnone
    · have hpr : p ∈ rest := by
        rcases List.mem_cons.mp hmem with h1 | h1
        · exact absurd h1 hpq
        · exact h1
      exact ih (ptrDtor s q) p (handlesNodup_ptrDtor hn q) hpr

theorem sweepOne_pointers (u : GCState) (a : Nat) :
    (sweepOne u a).pointers =
      (match alookup u.objects a with
      | none => u.pointers
      | some i =>
        match alookup (destructEmbedded
            { u with allocatedBytes := u.allocatedBytes - i.size }
            i.object i.size).objects a with
        | some i2 => (invalidateList (destructEmbedded
            { u with allocatedBytes := u.allocatedBytes - i.size }
            i.object i.size) i2.pointers).pointers
        | none => (destructEmbedded
            { u with allocatedBytes := u.allocatedBytes - i.size }
            i.object i.size).pointers) := by
  unfold sweepOne
  cases hla : alookup u.objects a with
  | none => rfl
  | some i =>
    simp only
    cases hla2 : alookup (destructEmbedded
        { u with allocatedBytes := u.allocatedBytes - i.size }
        i.object i.size).objects a with
    | none => simp [hla2]
    | some i2 => simp [hla2]

theorem sweepOne_findH {u : GCState} (hinv : HandleInv u) {a : Nat} {i : ObjectInfo}
    (hla : alookup u.objects a = some i) (p : Nat) :
    findH (sweepOne u a).pointers p =
      (match findH u.pointers p with
      | none => none
      | some h =>
        if i.object ≤ p ∧ p < i.object + i.size then none
        else if h.info = some a then some { h with object := none, info := none }
        else some h) := by
  have hptr := sweepOne_pointers u a
  simp only [hla] at hptr
  have hinv1 : HandleInv { u with allocatedBytes := u.allocatedBytes - i.size } := hinv
  have hinv2 : HandleInv (destructEmbedded
      { u with allocatedBytes := u.allocatedBytes - i.size } i.object i.size) := by
    unfold destructEmbedded
    exact hinv_destructList _ hinv1
  have hshape := destructEmbedded_lookup
    { u with allocatedBytes := u.allocatedBytes - i.size } i.object i.size a
  have hmem_emb : ∀ q : Nat,
      q ∈ (({ u with allocatedBytes := u.allocatedBytes - i.size } : GCState).pointers.filter
        (fun h => decide (i.object ≤ h.addr ∧ h.addr < i.object + i.size))).map
          (fun h => h.addr) ↔
      ∃ e ∈ u.pointers, e.addr = q ∧ i.object ≤ q ∧ q < i.object + i.size := by
    intro q
    constructor
    · intro hq
      obtain ⟨e, hef, heq⟩ := List.mem_map.mp hq
      obtain ⟨hem, hep⟩ := List.mem_filter.mp hef
      refine ⟨e, hem, heq, ?_⟩
      rw [← heq]
      exact of_decide_eq_true hep
    · rintro ⟨e, hem, heq, hrange⟩
      refine List.mem_map.mpr ⟨e, List.mem_filter.mpr ⟨hem, ?_⟩, heq⟩
      rw [heq]
      exact decide_eq_true hrange
  cases hfp : findH u.pointers p with
  | none =>
    have hnm : p ∉ _ := fun hq => by
      obtain ⟨e, hem, heq, _⟩ := (hmem_emb p).mp hq
      rw [findH_none_iff] at hfp
      exact hfp e hem heq
    rw [hptr]
    cases hla2 : alookup (destructEmbedded
        { u with allocatedBytes := u.allocatedBytes - i.size }
        i.object i.size).objects a with
    | none =>
      simp only [hla2]
      show findH (destructEmbedded.destructList _ _).pointers p = none
      rw [dl_findH_not_mem _ _ _ hnm]
      exact hfp
    | some i2 =>
      simp only [hla2]
      rw [invalidateList_pointers, findH_map_pres (fun e => by split <;> rfl)]
      have : findH (destructEmbedded
          { u with allocatedBytes := u.allocatedBytes - i.size }
          i.object i.size).pointers p = none := by
        show findH (destructEmbedded.destructList _ _).pointers p = none
        rw [dl_findH_not_mem _ _ _ hnm]
        exact hfp
      rw [this]
      rfl
  | some h =>
    have hhadr : h.addr = p := findH_addr hfp
    have hhm : h ∈ u.pointers := findH_mem hfp
    by_cases hr : i.object ≤ p ∧ p < i.object + i.size
    · have hin : p ∈ (({ u with allocatedBytes := u.allocatedBytes - i.size } :
          GCState).pointers.filter
          (fun h => decide (i.object ≤ h.addr ∧ h.addr < i.object + i.size))).map
            (fun h => h.addr) :=
        (hmem_emb p).mpr ⟨h, hhm, hhadr, hr⟩
      have hnone : findH (destructEmbedded
          { u with allocatedBytes := u.allocatedBytes - i.size }
          i.object i.size).pointers p = none := by
        show findH (destructEmbedded.destructList _ _).pointers p = none
        exact dl_findH_mem _ _ _ hinv1.1 hin
      rw [hptr]
      cases hla2 : alookup (destructEmbedded
          { u with allocatedBytes := u.allocatedBytes - i.size }
          i.object i.size).objects a with
      | none =>
        simp only [hla2, hr, if_pos]
        exact hnone
      | some i2 =>
        simp only [hla2]
        rw [invalidateList_pointers, findH_map_pres (fun e => by split <;> rfl), hnone]
        simp [hr]
    · have hnm : p ∉ (({ u with allocatedBytes := u.allocatedBytes - i.size } :
          GCState).pointers.filter
          (fun h => decide (i.object ≤ h.addr ∧ h.addr < i.object + i.size))).map
            (fun h => h.addr) := by
        intro hq
        obtain ⟨e, hem, heq, hrange⟩ := (hmem_emb p).mp hq
        have : e = h := addr_inj_of_nodup hinv.1 hem hhm (heq.trans hhadr.symm)
        exact hr hrange
      have hkeep : findH (destructEmbedded
          { u with allocatedBytes := u.allocatedBytes - i.size }
          i.object i.size).pointers p = some h := by
        show findH (destructEmbedded.destructList _ _).pointers p = some h
        rw [dl_findH_not_mem _ _ _ hnm]
        exact hfp
      rw [hptr]
      cases hla2 : alookup (destructEmbedded
          { u with allocatedBytes := u.allocatedBytes - i.size }
          i.object i.size).objects a with
      | none =>
        exfalso
        rw [hla2, hla] at hshape
        simp at hshape
      | some i2 =>
        simp only [hla2]
        rw [invalidateList_pointers, findH_map_pres (fun e => by split <;> rfl), hkeep]
        have hiff : h.addr ∈ i2.pointers ↔ h.info = some a := by
          constructor
          · intro hmemp
            obtain ⟨e, hem, hea, hei⟩ := hinv2.2.2.2 (a, i2) (alookup_mem hla2)
              h.addr hmemp
            have heh : e = h := by
              refine addr_inj_of_nodup hinv2.1 hem (findH_mem hkeep) ?_
              rw [hea, findH_addr hkeep]
            rw [← heh]
            exact hei
          · intro hia
            obtain ⟨i', hla', hmem'⟩ := hinv2.2.2.1 h (findH_mem hkeep) a hia
            rw [hla2] at hla'
            cases hla'
            exact hmem'
        by_cases hia : h.info = some a
        · have hmm : h.addr ∈ i2.pointers := hiff.mpr hia
          simp only [Option.map_some']
          rw [if_pos hmm, if_neg hr, if_pos hia]
        · have hmm : h.addr ∉ i2.pointers := fun hm => hia (hiff.mp hm)
          simp only [Option.map_some']
          rw [if_neg hmm, if_neg hr, if_neg hia]

theorem eraseKey_sublist : ∀ (l : List (Nat × ObjectInfo)) (a : Nat),
    (eraseKey l a).Sublist l := by
  intro l
  induction l with
  | nil => intro a; simp [eraseKey]
  | cons q t ih =>
    intro a
    by_cases hq : q.1 = a
    · simp only [eraseKey, hq, if_pos]
      exact (ih a).trans (List.sublist_cons_self _ _)
    · simp only [eraseKey, hq, if_neg, not_false_iff]
      exact (ih a).cons₂ _

theorem mem_eraseKey : ∀ {l : List (Nat × ObjectInfo)} {a : Nat}
    {q : Nat × ObjectInfo}, q ∈ eraseKey l a → q ∈ l ∧ q.1 ≠ a := by
  intro l
  induction l with
  | nil =>
    intro a q hq
    simp [eraseKey] at hq
  | cons r t ih =>
    intro a q hq
    by_cases hr : r.1 = a
    · simp only [eraseKey, hr, if_pos] at hq
      obtain ⟨h1, h2⟩ := ih hq
      exact ⟨List.mem_cons_of_mem _ h1, h2⟩
    · simp only [eraseKey, hr, if_neg, not_false_iff] at hq
      rcases List.mem_cons.mp hq with h1 | h1
      · exact ⟨h1 ▸ List.mem_cons_self _ _, h1 ▸ hr⟩
      · obtain ⟨h2, h3⟩ := ih h1
        exact ⟨List.mem_cons_of_mem _ h2, h3⟩

theorem forall2_mem_right {R : (Nat × ObjectInfo) → (Nat × ObjectInfo) → Prop} :
    ∀ {l m : List (Nat × ObjectInfo)}, List.Forall₂ R l m → ∀ q ∈ m,
      ∃ p ∈ l, R p q := by
  intro l m h
  induction h with
  | nil =>
    intro q hq
    simp at hq
  | cons hpq hrest ih =>
    intro q hq
    rcases List.mem_cons.mp hq with h1 | h1
    · exact ⟨_, List.mem_cons_self _ _, h1 ▸ hpq⟩
    · obtain ⟨p0, hp0, hr⟩ := ih q h1
      exact ⟨p0, List.mem_cons_of_mem _ hp0, hr⟩

theorem mp_handleInv {s t : GCState} (hm : MarkPre s t) (hinv : HandleInv s) :
    HandleInv t := by
  obtain ⟨hnd, hrp, hbl, hlb⟩ := hinv
  refine ⟨?_, ?_, ?_, ?_⟩
  · unfold handlesNodup
    rw [hm.1]
    exact hnd
  · intro q hq
    obtain ⟨p0, hp0, hr⟩ := forall2_mem_right hm.2.2.2 q hq
    rw [hr.2.2.2.2.1]
    exact hrp p0 hp0
  · intro h hmem a hia
    rw [hm.1] at hmem
    obtain ⟨i, hla, hin⟩ := hbl h hmem a hia
    obtain ⟨j, hj, _, _, _, hptr, _⟩ := mp_alookup_some hm hla
    exact ⟨j, hj, hptr ▸ hin⟩
  · intro q hq pe hpe
    obtain ⟨p0, hp0, hr⟩ := forall2_mem_right hm.2.2.2 q hq
    rw [hr.2.2.2.2.1] at hpe
    obtain ⟨e, hem, hea, hei⟩ := hlb p0 hp0 pe hpe
    refine ⟨e, ?_, hea, hr.1 ▸ hei⟩
    rw [hm.1]
    exact hem

theorem hinv_sweepOne {u : GCState} (hinv : HandleInv u) (a : Nat) :
    HandleInv (sweepOne u a) := by
  cases hla : alookup u.objects a with
  | none =>
    unfold sweepOne
    rw [hla]
    exact hinv
  | some i =>
    have hinv1 : HandleInv { u with allocatedBytes := u.allocatedBytes - i.size } := hinv
    have hinv2 : HandleInv (destructEmbedded
        { u with allocatedBytes := u.allocatedBytes - i.size } i.object i.size) := by
      unfold destructEmbedded
      exact hinv_destructList _ hinv1
    have hshape := destructEmbedded_lookup
      { u with allocatedBytes := u.allocatedBytes - i.size } i.object i.size a
    cases hla2 : alookup (destructEmbedded
        { u with allocatedBytes := u.allocatedBytes - i.size }
        i.object i.size).objects a with
    | none =>
      exfalso
      rw [hla2] at hshape
      have : alookup ({ u with allocatedBytes := u.allocatedBytes - i.size } :
          GCState).objects a = some i := hla
      rw [this] at hshape
      simp at hshape
    | some i2 =>
      have hobj4 : (sweepOne u a).objects = eraseKey (destructEmbedded
          { u with allocatedBytes := u.allocatedBytes - i.size }
          i.object i.size).objects a := by
        unfold sweepOne
        simp only [hla, hla2]
        rw [invalidateList_objects]
      have hptr4 : (sweepOne u a).pointers = (invalidateList (destructEmbedded
          { u with allocatedBytes := u.allocatedBytes - i.size }
          i.object i.size) i2.pointers).pointers := by
        have := sweepOne_pointers u a
        simp only [hla, hla2] at this
        exact this
      obtain ⟨hnd2, hrp2, hbl2, hlb2⟩ := hinv2
      refine ⟨?_, ?_, ?_, ?_⟩
      · unfold handlesNodup
        rw [hptr4, invalidateList_pointers, List.map_map]
        have hcomp : ((fun e : HandleRec => e.addr) ∘ (fun e =>
            if e.addr ∈ i2.pointers then { e with object := none, info := none }
            else e)) = fun e => e.addr := by
          funext e
          by_cases he : e.addr ∈ i2.pointers <;> simp [Function.comp, he]
        rw [hcomp]
        exact hnd2
      · intro q hq
        rw [hobj4] at hq
        exact hrp2 q (mem_eraseKey hq).1
      · intro h hmem w hw
        rw [hptr4, invalidateList_pointers] at hmem
        obtain ⟨e0, he0, hge⟩ := List.mem_map.mp hmem
        by_cases hein : e0.addr ∈ i2.pointers
        · rw [if_pos hein] at hge
          rw [← hge] at hw
          cases hw
        · rw [if_neg hein] at hge
          rw [← hge] at hw ⊢
          obtain ⟨i', hla', hmm'⟩ := hbl2 e0 he0 w hw
          have hwa : w ≠ a := by
            intro heq
            rw [heq, hla2] at hla'
            cases hla'
            exact hein hmm'
          rw [hobj4, alookup_eraseKey, if_neg hwa]
          exact ⟨i', hla', hmm'⟩
      · intro q hq pe hpe
        rw [hobj4] at hq
        obtain ⟨hq2, hqa⟩ := mem_eraseKey hq
        obtain ⟨e0, he0m, he0a, he0i⟩ := hlb2 q hq2 pe hpe
        have hnotin : e0.addr ∉ i2.pointers := by
          intro hein
          obtain ⟨e1, he1m, he1a, he1i⟩ := hlb2 (a, i2) (alookup_mem hla2)
            e0.addr hein
          have : e1 = e0 := addr_inj_of_nodup hnd2 he1m he0m he1a
          rw [this, he0i] at he1i
          exact hqa (Option.some.inj he1i)
        refine ⟨e0, ?_, he0a, he0i⟩
        rw [hptr4, invalidateList_pointers]
        refine List.mem_map.mpr ⟨e0, he0m, ?_⟩
        rw [if_neg hnotin]

/-! ### Tracking handles through the whole sweep -/

theorem sweepLoopOk_inv : ∀ (free : List Nat) (u : GCState) (fin fin' : List Nat)
    (s' : GCState), HandleInv u → sweepLoop u free fin = .ok s' fin' →
    HandleInv s' := by
  intro free
  induction free with
  | nil =>
    intro u fin fin' s' hinv hrun
    simp only [sweepLoop] at hrun
    cases hrun
    exact hinv
  | cons a rest ih =>
    intro u fin fin' s' hinv hrun
    simp only [sweepLoop] at hrun
    cases hla : alookup u.objects a with
    | none =>
      simp only [hla] at hrun
      exact ih u _ _ s' hinv hrun
    | some i =>
      simp only [hla] at hrun
      by_cases hbd : i.destroyBound = true
      · rw [if_pos hbd] at hrun
        exact ih (sweepOne u a) _ _ s' (hinv_sweepOne hinv a) hrun
      · rw [if_neg hbd] at hrun
        cases hrun

theorem sweepLoopOk_none_stays : ∀ (free : List Nat) (u : GCState)
    (fin fin' : List Nat) (s' : GCState) (p : Nat), HandleInv u →
    sweepLoop u free fin = .ok s' fin' → findH u.pointers p = none →
    findH s'.pointers p = none := by
  intro free
  induction free with
  | nil =>
    intro u fin fin' s' p _ hrun hnone
    simp only [sweepLoop] at hrun
    cases hrun
    exact hnone
  | cons a rest ih =>
    intro u fin fin' s' p hinv hrun hnone
    simp only [sweepLoop] at hrun
    cases hla : alookup u.objects a with
    | none =>
      simp only [hla] at hrun
      exact ih u _ _ s' p hinv hrun hnone
    | some i =>
      simp only [hla] at hrun
      by_cases hbd : i.destroyBound = true
      · rw [if_pos hbd] at hrun
        refine ih (sweepOne u a) _ _ s' p (hinv_sweepOne hinv a) hrun ?_
        rw [sweepOne_findH hinv hla p, hnone]
      · rw [if_neg hbd] at hrun
        cases hrun

theorem sweepLoopOk_invalid_stays : ∀ (free : List Nat) (u : GCState)
    (fin fin' : List Nat) (s' : GCState) (p : Nat) (h : HandleRec), HandleInv u →
    sweepLoop u free fin = .ok s' fin' → findH u.pointers p = some h →
    h.info = none →
    findH s'.pointers p = none ∨ findH s'.pointers p = some h := by
  intro free
  induction free with
  | nil =>
    intro u fin fin' s' p h _ hrun hf _
    simp only [sweepLoop] at hrun
    cases hrun
    exact Or.inr hf
  | cons a rest ih =>
    intro u fin fin' s' p h hinv hrun hf hnone
    simp only [sweepLoop] at hrun
    cases hla : alookup u.objects a with
    | none =>
      simp only [hla] at hrun
      exact ih u _ _ s' p h hinv hrun hf hnone
    | some i =>
      simp only [hla] at hrun
      by_cases hbd : i.destroyBound = true
      · rw [if_pos hbd] at hrun
        have hstep := sweepOne_findH hinv hla p
        simp only [hf] at hstep
        by_cases hr : i.object ≤ p ∧ p < i.object + i.size
        · rw [if_pos hr] at hstep
          exact Or.inl (sweepLoopOk_none_stays rest (sweepOne u a) _ _ s' p
            (hinv_sweepOne hinv a) hrun hstep)
        · rw [if_neg hr] at hstep
          have hne : ¬ h.info = some a := by
            rw [hnone]
            intro hc
            cases hc
          rw [if_neg hne] at hstep
          exact ih (sweepOne u a) _ _ s' p h (hinv_sweepOne hinv a) hrun hstep hnone
      · rw [if_neg hbd] at hrun
        cases hrun

theorem sweepLoopOk_invalidated : ∀ (free : List Nat) (u : GCState)
    (fin fin' : List Nat) (s' : GCState) (p : Nat) (h : HandleRec) (a : Nat),
    HandleInv u → sweepLoop u free fin = .ok s' fin' →
    findH u.pointers p = some h → h.info = some a → a ∈ free →
    findH s'.pointers p = none ∨
    findH s'.pointers p = some { h with object := none, info := none } := by
  intro free
  induction free with
  | nil =>
    intro u fin fin' s' p h a _ _ _ _ hmem
    simp at hmem
  | cons a' rest ih =>
    intro u fin fin' s' p h a hinv hrun hf hia hmem
    simp only [sweepLoop] at hrun
    cases hla : alookup u.objects a' with
    | none =>
      simp only [hla] at hrun
      have haa : a ≠ a' := by
        intro heq
        obtain ⟨i, hla0, _⟩ := hinv.2.2.1 h (findH_mem hf) a hia
        rw [heq, hla] at hla0
        cases hla0
      have hmem' : a ∈ rest := by
        rcases List.mem_cons.mp hmem with h1 | h1
        · exact absurd h1 haa
        · exact h1
      exact ih u _ _ s' p h a hinv hrun hf hia hmem'
    | some i =>
      simp only [hla] at hrun
      by_cases hbd : i.destroyBound = true
      · rw [if_pos hbd] at hrun
        have hstep := sweepOne_findH hinv hla p
        simp only [hf] at hstep
        by_cases hr : i.object ≤ p ∧ p < i.object + i.size
        · rw [if_pos hr] at hstep
          exact Or.inl (sweepLoopOk_none_stays rest (sweepOne u a') _ _ s' p
            (hinv_sweepOne hinv a') hrun hstep)
        · rw [if_neg hr] at hstep
          by_cases haa : a = a'
          · subst haa
            rw [if_pos hia] at hstep
            rcases sweepLoopOk_invalid_stays rest (sweepOne u a) _ _ s' p
              { h with object := none, info := none }
              (hinv_sweepOne hinv a) hrun hstep rfl with h1 | h1
            · exact Or.inl h1
            · exact Or.inr h1
          · have hne : ¬ h.info = some a' := by
              rw [hia]
              intro hc
              exact haa (Option.some.inj hc)
            rw [if_neg hne] at hstep
            have hmem' : a ∈ rest := by
              rcases List.mem_cons.mp hmem with h1 | h1
              · exact absurd h1 haa
              · exact h1
            exact ih (sweepOne u a') _ _ s' p h a (hinv_sweepOne hinv a') hrun
              hstep hia hmem'
      · rw [if_neg hbd] at hrun
        cases hrun

theorem sweepLoopOk_lookup_notin : ∀ (free : List Nat) (u : GCState)
    (fin fin' : List Nat) (s' : GCState),
    sweepLoop u free fin = .ok s' fin' → ∀ x, x ∉ free →
    (alookup s'.objects x).map recShape = (alookup u.objects x).map recShape := by
  intro free
  induction free with
  | nil =>
    intro u fin fin' s' hrun x _
    simp only [sweepLoop] at hrun
    cases hrun
    rfl
  | cons a rest ih =>
    intro u fin fin' s' hrun x hx
    have hxa : x ≠ a := fun h => hx (h ▸ List.mem_cons_self _ _)
    have hxr : x ∉ rest := fun h => hx (List.mem_cons_of_mem _ h)
    simp only [sweepLoop] at hrun
    cases hla : alookup u.objects a with
    | none =>
      simp only [hla] at hrun
      exact ih u _ _ s' hrun x hxr
    | some i =>
      simp only [hla] at hrun
      by_cases hbd : i.destroyBound = true
      · rw [if_pos hbd] at hrun
        rw [ih (sweepOne u a) _ _ s' hrun x hxr]
        have := sweepOne_lookup u a x
        rw [if_neg hxa] at this
        exact this
      · rw [if_neg hbd] at hrun
        cases hrun

theorem opDelete_pointers {s : GCState} {a : Nat} {i : ObjectInfo}
    (hla : alookup s.objects a = some i) :
    (opDelete s a).pointers = (invalidateList
      { s with allocatedBytes := s.allocatedBytes - i.size } i.pointers).pointers := by
  unfold opDelete
  simp only [hla]

/-- C4.  After a record leaves the registry, every still-alive handle
that was bound to it is invalid: explicit deallocation invalidates every
bound handle in place (empty target, empty record reference, so
`isValid()` is false), and a record removed by the sweep leaves every
surviving handle that was bound to it with empty target and record
reference as well. -/
theorem C4_handle_invalidation (s : GCState) (hw : WFState s) :
    (∀ h ∈ s.pointers, ∀ a, h.info = some a →
      handleAt (opDelete s a) h.addr =
        some { h with object := none, info := none } ∧
      ({ h with object := none, info := none } : HandleRec).isValid = false) ∧
    (∀ s' fin, CollectGarbage s = some (.ok s' fin) →
      ∀ p h a, findH s.pointers p = some h → h.info = some a →
        isRegistered s' a = false →
        ∀ h', findH s'.pointers p = some h' →
          h'.object = none ∧ h'.info = none ∧ h'.isValid = false) := by
  obtain ⟨hk, hnd, hrp, hbl, hlb⟩ := hw
  constructor
  · intro h hm a hia
    obtain ⟨i, hla, hmm⟩ := hbl h hm a hia
    refine ⟨?_, rfl⟩
    unfold handleAt
    rw [opDelete_pointers hla, invalidateList_pointers]
    show findH (s.pointers.map (fun e =>
      if e.addr ∈ i.pointers then { e with object := none, info := none } else e))
        h.addr = _
    rw [findH_map_pres (fun e => by split <;> rfl), findH_of_mem_nodup hnd hm]
    simp only [Option.map_some']
    rw [if_pos hmm]
  · intro s' fin hcg p h a hf hia hgone h' hf'
    cases hmr : markRoots (flipMark s) (flipMark s).pointers with
    | none => exact absurd hmr (fun x => roots_not_none _ _ x)
    | some s1 =>
      have hcg2 : CollectGarbage s = some (sweepLoop s1 (freeListOf s1) []) := by
        simp only [CollectGarbage, hmr]
      rw [hcg2] at hcg
      have hrun : sweepLoop s1 (freeListOf s1) [] = .ok s' fin := Option.some.inj hcg
      have hpre : MarkPre (flipMark s) s1 := roots_pre _ _ _ hmr
      have hinv0 : HandleInv (flipMark s) := ⟨hnd, hrp, hbl, hlb⟩
      have hinv1 : HandleInv s1 := mp_handleInv hpre hinv0
      have hps : s1.pointers = s.pointers := hpre.1
      have hf1 : findH s1.pointers p = some h := by
        rw [hps]
        exact hf
      obtain ⟨i, hla, _⟩ := hbl h (findH_mem hf) a hia
      obtain ⟨j, hj, _⟩ := mp_alookup_some hpre
        (show alookup (flipMark s).objects a = some i from hla)
      have hafree : a ∈ freeListOf s1 := by
        by_contra hnot
        have hkeep := sweepLoopOk_lookup_notin _ _ _ _ _ hrun a hnot
        rw [hj] at hkeep
        cases hsa : alookup s'.objects a with
        | none =>
          rw [hsa] at hkeep
          simp at hkeep
        | some jj =>
          rw [isRegistered, hsa] at hgone
          simp at hgone
      rcases sweepLoopOk_invalidated _ _ _ _ _ p h a hinv1 hrun hf1 hia hafree
        with h1 | h1
      · rw [h1] at hf'
        cases hf'
      · rw [h1] at hf'
        cases hf'
        exact ⟨rfl, rfl, rfl⟩

/-- Witness for C4 on the post-collection demonstration heap. -/
theorem C4_handle_invalidation_witness :
    WFState scenarioAfter ∧
    ((∀ h ∈ scenarioAfter.pointers, ∀ a, h.info = some a →
      handleAt (opDelete scenarioAfter a) h.addr =
        some { h with object := none, info := none } ∧
      ({ h with object := none, info := none } : HandleRec).isValid = false) ∧
    (∀ s' fin, CollectGarbage scenarioAfter = some (.ok s' fin) →
      ∀ p h a, findH scenarioAfter.pointers p = some h → h.info = some a →
        isRegistered s' a = false →
        ∀ h', findH s'.pointers p = some h' →
          h'.object = none ∧ h'.info = none ∧ h'.isValid = false)) :=
  ⟨by decide, C4_handle_invalidation scenarioAfter (by decide)⟩

theorem reachable_registered {s : GCState} {x : Nat} (h : Reachable s x) :
    isRegistered s x = true := by
  obtain ⟨r, ⟨h0, hm0, hr0, hi0, hreg0⟩, hpath⟩ := h
  rcases Relation.ReflTransGen.cases_tail hpath with heq | ⟨c, _, hedge⟩
  · rw [heq]
    exact hreg0
  · obtain ⟨i, hh, hla, hmem, h1, h2, h3, h4⟩ := hedge
    exact h4

theorem sweepLoopOk_keep : ∀ (free : List Nat) (u : GCState)
    (fin fin' : List Nat) (s' : GCState) (p : Nat) (h : HandleRec), HandleInv u →
    sweepLoop u free fin = .ok s' fin' → findH u.pointers p = some h →
    (∀ a ∈ free, ∀ i, alookup u.objects a = some i →
      ¬ (i.object ≤ p ∧ p < i.object + i.size)) →
    (∀ b, h.info = some b → b ∉ free) →
    findH s'.pointers p = some h := by
  intro free
  induction free with
  | nil =>
    intro u fin fin' s' p h _ hrun hf _ _
    simp only [sweepLoop] at hrun
    cases hrun
    exact hf
  | cons a rest ih =>
    intro u fin fin' s' p h hinv hrun hf hrange hbnd
    simp only [sweepLoop] at hrun
    cases hla : alookup u.objects a with
    | none =>
      simp only [hla] at hrun
      exact ih u _ _ s' p h hinv hrun hf
        (fun a' ha' i hi => hrange a' (List.mem_cons_of_mem _ ha') i hi)
        (fun b hb hbr => hbnd b hb (List.mem_cons_of_mem _ hbr))
    | some i =>
      simp only [hla] at hrun
      by_cases hbd : i.destroyBound = true
      · rw [if_pos hbd] at hrun
        have hstep := sweepOne_findH hinv hla p
        simp only [hf] at hstep
        have hr : ¬ (i.object ≤ p ∧ p < i.object + i.size) :=
          hrange a (List.mem_cons_self _ _) i hla
        rw [if_neg hr] at hstep
        have hne : ¬ h.info = some a := fun hc =>
          hbnd a hc (List.mem_cons_self _ _)
        rw [if_neg hne] at hstep
        refine ih (sweepOne u a) _ _ s' p h (hinv_sweepOne hinv a) hrun hstep
          ?_ (fun b hb hbr => hbnd b hb (List.mem_cons_of_mem _ hbr))
        intro a' ha' i' hi'
        by_cases haa : a' = a
        · subst haa
          have hsl := sweepOne_lookup u a' a'
          rw [if_pos rfl, hi'] at hsl
          simp at hsl
        · have hsl := sweepOne_lookup u a a'
          rw [if_neg haa, hi'] at hsl
          cases hu : alookup u.objects a' with
          | none =>
            rw [hu] at hsl
            simp at hsl
          | some i0 =>
            rw [hu] at hsl
            simp only [Option.map_some'] at hsl
            have hparts := recShape_parts (Option.some.inj hsl)
            rw [hparts.1, hparts.2.1]
            exact hrange a' (List.mem_cons_of_mem _ ha') i0 hu
      · rw [if_neg hbd] at hrun
        cases hrun

theorem reach_after_collect (s : GCState) (hw : WFState s) (hmu : marksUniform s)
    (hd : disjointRecs s) (hro : rootsOutside s)
    {s1 s' : GCState} {fin : List Nat}
    (hmr : markRoots (flipMark s) (flipMark s).pointers = some s1)
    (hrun : sweepLoop s1 (freeListOf s1) [] = .ok s' fin) :
    ∀ x, Reachable s x → Reachable s' x := by
  obtain ⟨hk, hnd, hrp, hbl, hlb⟩ := hw
  have hpre : MarkPre (flipMark s) s1 := roots_pre _ _ _ hmr
  have hk1 : keysNodup s1 := by
    unfold keysNodup
    rw [show s1.objects.map (fun q => q.1) = keysOf s1 from rfl, mp_keys hpre]
    exact hk
  have hiff : ∀ x, isMarked s1 x = true ↔ Reachable s x :=
    marked_iff_reachable hmu hmr
  have hptr1 : s1.pointers = s.pointers := hpre.1
  have hinv1 : HandleInv s1 := mp_handleInv hpre ⟨hnd, hrp, hbl, hlb⟩
  have hnotfree : ∀ b, Reachable s b → b ∉ freeListOf s1 := by
    intro b hreach hbf
    obtain ⟨j, hj, hst⟩ := (freeList_mem hk1 b).mp hbf
    have hmk := (hiff b).mpr hreach
    rw [isMarked_of_lookup hj] at hmk
    exact hst hmk
  have hfree_shape : ∀ a ∈ freeListOf s1, ∀ i, alookup s1.objects a = some i →
      ∃ v, (a, v) ∈ s.objects ∧ i.object = v.object ∧ i.size = v.size := by
    intro a ha i hi
    obtain ⟨p0, hp0, hr⟩ := forall2_mem_right hpre.2.2.2 (a, i) (alookup_mem hi)
    obtain ⟨k, v⟩ := p0
    obtain ⟨he1, he2, he3, _, _, _⟩ := hr
    refine ⟨v, ?_, he2, he3⟩
    rw [show a = k from he1]
    exact hp0
  have hkeepgen : ∀ h ∈ s.pointers,
      (∀ a ∈ freeListOf s1, ∀ v, (a, v) ∈ s.objects →
        ¬ (v.object ≤ h.addr ∧ h.addr < v.object + v.size)) →
      (∀ b, h.info = some b → Reachable s b) →
      findH s'.pointers h.addr = some h := by
    intro h hm hranges hbx
    have hf1 : findH s1.pointers h.addr = some h := by
      rw [hptr1]
      exact findH_of_mem_nodup hnd hm
    refine sweepLoopOk_keep _ _ _ _ _ _ _ hinv1 hrun hf1 ?_ ?_
    · intro a ha i hi hcontra
      obtain ⟨v, hvmem, ho, hz⟩ := hfree_shape a ha i hi
      rw [ho, hz] at hcontra
      exact hranges a ha v hvmem hcontra
    · intro b hb
      exact hnotfree b (hbx b hb)
  have hsurv : ∀ x, Reachable s x → ∃ j, alookup s'.objects x = some j := by
    intro x hx
    have hsh := sweepLoopOk_lookup_notin _ _ _ _ _ hrun x (hnotfree x hx)
    have hregs1 : isRegistered s1 x = true := by
      rw [mp_isRegistered hpre x]
      exact reachable_registered hx
    cases hl1 : alookup s1.objects x with
    | none =>
      rw [isRegistered, hl1] at hregs1
      simp at hregs1
    | some j1 =>
      rw [hl1] at hsh
      cases hl2 : alookup s'.objects x with
      | none =>
        rw [hl2] at hsh
        simp at hsh
      | some j => exact ⟨j, rfl⟩
  have hshape2 : ∀ y, Reachable s y → ∀ v, alookup s.objects y = some v →
      ∃ j, alookup s'.objects y = some j ∧ j.object = v.object ∧ j.size = v.size := by
    intro y hy v hv
    obtain ⟨j1, hj1, ho1, hz1, _, _, _⟩ := mp_alookup_some hpre
      (show alookup (flipMark s).objects y = some v from hv)
    have hsh := sweepLoopOk_lookup_notin _ _ _ _ _ hrun y (hnotfree y hy)
    rw [hj1] at hsh
    cases hl2 : alookup s'.objects y with
    | none =>
      rw [hl2] at hsh
      simp at hsh
    | some j =>
      rw [hl2] at hsh
      simp only [Option.map_some'] at hsh
      have hparts := recShape_parts (Option.some.inj hsh)
      exact ⟨j, rfl, hparts.1.trans ho1, hparts.2.1.trans hz1⟩
  have hroot2 : ∀ r, RootReach s r → RootReach s' r := by
    rintro r ⟨h, hm, hro2, hi, hreg⟩
    have hreach_r : Reachable s r :=
      ⟨r, ⟨h, hm, hro2, hi, hreg⟩, Relation.ReflTransGen.refl⟩
    have hkeep := hkeepgen h hm
      (fun a _ v hvmem => hro h hm hro2 (a, v) hvmem)
      (fun b hb => by
        rw [hi] at hb
        exact (Option.some.inj hb) ▸ hreach_r)
    obtain ⟨j, hj⟩ := hsurv r hreach_r
    refine ⟨h, findH_mem hkeep, hro2, hi, ?_⟩
    rw [isRegistered, hj]
    rfl
  have hedge2 : ∀ y x, Reachable s y → Edge s y x → Edge s' y x := by
    rintro y x hry ⟨v, h, hla, hm, hle, hlt, hinfo, hregx⟩
    have hrx : Reachable s x := by
      obtain ⟨r, hr, hpath⟩ := hry
      exact ⟨r, hr, hpath.tail ⟨v, h, hla, hm, hle, hlt, hinfo, hregx⟩⟩
    have hkeep := hkeepgen h hm
      (fun a ha q hqmem => by
        have hnra : ¬ Reachable s a := fun hra => hnotfree a hra ha
        have hay : a ≠ y := fun he => hnra (he ▸ hry)
        have hdisj : q.object + q.size ≤ v.object ∨ v.object + v.size ≤ q.object :=
          hd (a, q) hqmem (y, v) (alookup_mem hla) hay
        rintro ⟨hc1, hc2⟩
        rcases hdisj with h1 | h1 <;> omega)
      (fun b hb => by
        rw [hinfo] at hb
        exact (Option.some.inj hb) ▸ hrx)
    obtain ⟨j, hj, hjo, hjz⟩ := hshape2 y hry v hla
    obtain ⟨jx, hjx⟩ := hsurv x hrx
    refine ⟨j, h, hj, findH_mem hkeep, ?_, ?_, hinfo, ?_⟩
    · rw [hjo]
      exact hle
    · rw [hjo, hjz]
      exact hlt
    · rw [isRegistered, hjx]
      rfl
  intro x hx
  obtain ⟨r, hr, hpath⟩ := hx
  refine ⟨r, hroot2 r hr, ?_⟩
  induction hpath with
  | refl => exact Relation.ReflTransGen.refl
  | tail hab hbc ih => exact ih.tail (hedge2 _ _ ⟨r, hr, hab⟩ hbc)

/-- C5 counterexample.  A Root Handle stored inside a managed allocation
keeps its target alive through the first collection, but the sweep
destroys the embedded root together with its unreached host allocation,
so the second collection (with no intervening mutation) removes the
record at 200 that the first call had kept: collect() is not idempotent. -/
theorem C5_idempotence_counterexample :
    CollectGarbage rootInObjState = some (.ok rootInObjAfter1 [100]) ∧
    isRegistered rootInObjAfter1 200 = true ∧
    CollectGarbage rootInObjAfter1 = some (.ok emptyState [200]) ∧
    isRegistered emptyState 200 = false := by
  decide

/-- C5 (amended).  For every well-formed heap state with uniform marks,
all finalizers bound, pairwise disjoint allocation ranges, and every
Root Handle stored outside all managed allocations, a second collect()
right after a first one finalizes nothing: it returns the registry keys
and the byte counter of the first call's result unchanged. -/
theorem C5_collect_idempotent_amended (s : GCState) (hw : WFState s)
    (hmu : marksUniform s) (hb : allBound s) (hd : disjointRecs s)
    (hro : rootsOutside s) :
    ∃ s' fin s'' fin', CollectGarbage s = some (.ok s' fin) ∧
      CollectGarbage s' = some (.ok s'' fin') ∧ fin' = [] ∧
      keysOf s'' = keysOf s' ∧ s''.allocatedBytes = s'.allocatedBytes := by
  obtain ⟨s1, hmr, hpre, hk1, hcur1, hptr1, hiff, hcg⟩ := collect_setup s hw.1 hmu
  obtain ⟨s', fin, hcg2, hsurv_iff, hfin_iff, hfnd, hmu2, hk2, hb2, hcur2⟩ :=
    collect_ok_main s hw.1 hmu hb
  have hrun : sweepLoop s1 (freeListOf s1) [] = .ok s' fin := by
    rw [hcg] at hcg2
    exact Option.some.inj hcg2
  have hreach2 : ∀ x, Reachable s x → Reachable s' x :=
    reach_after_collect s hw hmu hd hro hmr hrun
  have hall_reach : ∀ x, isRegistered s' x = true → Reachable s' x := by
    intro x hx
    exact hreach2 x ((hsurv_iff x).mp hx).2
  obtain ⟨t1, hmr2, hpre2, hk1b, hcur1b, hptr1b, hiff2, hcg3⟩ :=
    collect_setup s' hk2 hmu2
  have hfree2 : freeListOf t1 = [] := by
    rw [List.eq_nil_iff_forall_not_mem]
    intro a ha
    obtain ⟨i, hl, hst⟩ := (freeList_mem hk1b a).mp ha
    have hreg1 : isRegistered s' a = true := by
      have ht : isRegistered t1 a = true := by
        rw [isRegistered, hl]
        rfl
      rw [mp_isRegistered hpre2 a] at ht
      exact ht
    have hmk := (hiff2 a).mpr (hall_reach a hreg1)
    rw [isMarked_of_lookup hl] at hmk
    exact hst hmk
  refine ⟨s', fin, t1, [], hcg2, ?_, rfl, ?_, ?_⟩
  · rw [hcg3, hfree2]
    rfl
  · rw [show keysOf t1 = keysOf (flipMark s') from mp_keys hpre2]
    rfl
  · exact hpre2.2.2.1

/-- Witness for the amended C5 on the demonstration heap. -/
theorem C5_collect_idempotent_amended_witness :
    (WFState scenarioState ∧ marksUniform scenarioState ∧ allBound scenarioState ∧
      disjointRecs scenarioState ∧ rootsOutside scenarioState) ∧
    (∃ s' fin s'' fin', CollectGarbage scenarioState = some (.ok s' fin) ∧
      CollectGarbage s' = some (.ok s'' fin') ∧ fin' = [] ∧
      keysOf s'' = keysOf s' ∧ s''.allocatedBytes = s'.allocatedBytes) :=
  ⟨⟨by decide, by decide, by decide, by decide, by decide⟩,
   C5_collect_idempotent_amended scenarioState (by decide) (by decide) (by decide)
     (by decide) (by decide)⟩

end GC
